import Mathlib

/-!
Verification development for the embedded HTTP client engine
(src/src/http_client.c).  The data model and the operations are embedded
shallowly: `struct ist` becomes `Option String`, the byte buffer
(`struct buffer`) becomes a capacity/contents pair, and the structured
HTX message becomes a list of typed blocks with a capacity and an
end-of-message flag.  Primitives that live outside the provided sources
(htx.c, buf.c, tools.c, the applet scheduler) are modelled from the spec
and marked as such in their doc comments.
-/

/-! ## Basic string/ist model -/

/-- Model of `struct ist`: `none` is `IST_NULL` (null pointer), `some s` a
real string. -/
abbrev Ist := Option String

/-- Model of `isttest`: true iff the pointer is non-null. -/
def isttest (i : Ist) : Bool := i.isSome

/-- Case-insensitive equality of character lists, the model of `isteqi`. -/
def eqCI (a b : List Char) : Bool :=
  (a.map Char.toLower) = (b.map Char.toLower)

/-- Lowercasing of a string through its character list (the kernel can
evaluate this, unlike `String.toLower`). -/
def lowerStr (s : String) : String := String.mk (s.toList.map Char.toLower)

/-- Plain list-of-chars equality check against a leading pattern. -/
def startsWithStr (s pat : List Char) : Bool := s.take pat.length = pat

/-! ## Raw byte buffer model -/

/-- Model of `struct buffer` holding raw bytes: a capacity and the bytes
currently stored.  `BUF_NULL` is the buffer with capacity 0. -/
structure RawBuf where
  size : Nat
  bytes : List Nat
deriving DecidableEq, Repr

/-- Model of `BUF_NULL`: no area, size 0. -/
def bufNull : RawBuf := ⟨0, []⟩

/-- Modelled from the spec: `b_room`, the number of free bytes. -/
def b_room (b : RawBuf) : Nat := b.size - b.bytes.length

/-- Modelled from the spec: `b_data`, the number of stored bytes. -/
def b_data (b : RawBuf) : Nat := b.bytes.length

/-- Modelled from the spec: `b_free` releases the storage, leaving
`BUF_NULL`. -/
def b_free (_ : RawBuf) : RawBuf := bufNull

/-! ## HTX structured message model -/

/-- Model of the HTX block types used by the client: request/response
start lines, headers, end-of-headers, data and end-of-trailers. -/
inductive HtxBlk where
  | reqSL (meth url vsn : String) (bodyless : Bool)
  | resSL (vsn : String) (status : Nat) (reason : String) (isResp : Bool)
  | hdr (n v : String)
  | eoh
  | data (bytes : List Nat)
  | eot
deriving DecidableEq, Repr

/-- Modelled from the spec: abstract size accounting of a block inside the
structured buffer (`htx_get_blksz`); payload length, with markers and
per-header overhead counted as one unit. -/
def HtxBlk.size : HtxBlk → Nat
  | .reqSL m u v _ => m.length + u.length + v.length + 1
  | .resSL v _ r _ => v.length + r.length + 1
  | .hdr n v => n.length + v.length + 1
  | .eoh => 1
  | .data bs => bs.length
  | .eot => 1

/-- Model of an HTX message: a capacity, the block sequence and the
`HTX_FL_EOM` flag. -/
structure Htx where
  size : Nat
  blocks : List HtxBlk
  eom : Bool
deriving DecidableEq, Repr

/-- Total space used by the blocks of an HTX message. -/
def Htx.used (h : Htx) : Nat := (h.blocks.map HtxBlk.size).sum

/-- Modelled from the spec: free space in the structured buffer. -/
def Htx.free (h : Htx) : Nat := h.size - h.used

/-- Model of `htx_is_empty`: no block at all. -/
def htx_is_empty (h : Htx) : Bool := h.blocks.isEmpty

/-- A fresh empty HTX message of a given capacity. -/
def emptyHtx (cap : Nat) : Htx := ⟨cap, [], false⟩

/-- Modelled from the spec: appending one block to the structured buffer;
fails (returns `none`) when the block does not fit in the free space. -/
def htx_add_blk (h : Htx) (b : HtxBlk) : Option Htx :=
  if b.size ≤ h.free then some { h with blocks := h.blocks ++ [b] } else none

/-- Modelled from the spec: `htx_add_header`. -/
def htx_add_header (h : Htx) (n v : String) : Option Htx :=
  htx_add_blk h (.hdr n v)

/-- Modelled from the spec: `htx_add_endof(htx, HTX_BLK_EOH)`. -/
def htx_add_eoh (h : Htx) : Option Htx := htx_add_blk h .eoh

/-- Modelled from the spec: `htx_add_endof(htx, HTX_BLK_EOT)`. -/
def htx_add_eot (h : Htx) : Option Htx := htx_add_blk h .eot

/-- Modelled from the spec: `htx_add_data_atonce`, all-or-nothing append of
a data block. -/
def htx_add_data_atonce (h : Htx) (bs : List Nat) : Option Htx :=
  htx_add_blk h (.data bs)

/-- Modelled from the spec: `htx_add_data` appends as many bytes of `src`
as fit in the free space and returns the count actually consumed. -/
def htx_add_data (h : Htx) (src : List Nat) : Htx × Nat :=
  let n := min src.length h.free
  if n = 0 then (h, 0)
  else ({ h with blocks := h.blocks ++ [.data (src.take n)] }, n)

/-! ## The client object -/

/-- The four `HTTPCLIENT_F*` flags, modelled as individual booleans. -/
structure HcFlags where
  started : Bool
  ended : Bool
  stop : Bool
  autokill : Bool
deriving DecidableEq, Repr

/-- The four-slot callback vtable plus the request streaming callback;
each slot is modelled by whether a callback is registered. -/
structure HcOps where
  req_payload : Bool
  res_stline : Bool
  res_headers : Bool
  res_payload : Bool
  res_end : Bool
deriving DecidableEq, Repr

/-- One slot of the `hc->res.hdrs` array: a real (name, value) pair, the
`IST_NULL`/`IST_NULL` sentinel, or a slot the extraction loop never
wrote (uninitialized stack memory in the C code). -/
inductive HdrSlot where
  | entry (n v : String)
  | sentinel
  | uninit
deriving DecidableEq, Repr

/-- The request half of `struct httpclient`.  The outgoing buffer holds a
structured HTX message; `none` is `BUF_NULL`. -/
structure HcReq where
  url : Ist
  meth : Nat
  buf : Option Htx
deriving DecidableEq, Repr

/-- The response half of `struct httpclient`. -/
structure HcRes where
  status : Nat
  vsn : Ist
  reason : Ist
  hdrs : Option (List HdrSlot)
  buf : RawBuf
deriving DecidableEq, Repr

/-- Model of `struct httpclient`.  `caller` and `appctx` are weak
back-references, modelled by whether they are currently attached. -/
structure HttpClient where
  req : HcReq
  res : HcRes
  dst : Option String
  timeout_server : Nat
  ops : HcOps
  caller : Bool
  appctx : Bool
  flags : HcFlags
deriving DecidableEq, Repr

/-- Model of `httpclient_started`. -/
def httpclient_started (hc : HttpClient) : Bool := hc.flags.started

/-- Model of `httpclient_ended`. -/
def httpclient_ended (hc : HttpClient) : Bool := hc.flags.ended

/-- Model of `httpclient_new`: a zero-initialized client with the URL
duplicated and the method recorded. -/
def httpclient_new (caller : Bool) (meth : Nat) (url : Ist) : HttpClient :=
  { req := { url := url, meth := meth, buf := none }
    res := { status := 0, vsn := none, reason := none, hdrs := none, buf := bufNull }
    dst := none
    timeout_server := 0
    ops := ⟨false, false, false, false, false⟩
    caller := caller
    appctx := false
    flags := ⟨false, false, false, false⟩ }

/-! ## Destroy and stop (httpclient_destroy, httpclient_stop_and_destroy) -/

/-- The observable result of the release work done by
`httpclient_destroy`: URL, both buffers, the header array and the
destination override are all freed. -/
def clearedClient (hc : HttpClient) : HttpClient :=
  { hc with
      req := { hc.req with url := none, buf := none }
      res := { hc.res with vsn := none, reason := none, hdrs := none, buf := bufNull }
      dst := none }

/-- Model of `httpclient_destroy`.  `none` models the `BUG_ON` fatal
assertion (client started but not ended); otherwise every owned resource
is released. -/
def httpclient_destroy (hc : HttpClient) : Option HttpClient :=
  if httpclient_started hc && !(httpclient_ended hc) then none
  else some (clearedClient hc)

/-- Model of `httpclient_stop_and_destroy`: destroy immediately when the
client is ended or never started, otherwise request a cooperative stop
with autokill, detach the caller and wake the task. -/
def httpclient_stop_and_destroy (hc : HttpClient) : Option HttpClient :=
  if httpclient_ended hc || !(httpclient_started hc) then
    httpclient_destroy hc
  else
    some { hc with
            flags := { hc.flags with stop := true, autokill := true }
            caller := false }

/-! ## Response drain (httpclient_res_xfer) -/

/-- Model of `b_force_xfer`: moves exactly `count` bytes (already bounded
by the caller) from the head of `src` to the tail of `dst`. -/
def b_force_xfer (dst src : RawBuf) (count : Nat) : RawBuf × RawBuf × Nat :=
  let n := min count (b_data src)
  ({ dst with bytes := dst.bytes ++ src.bytes.take n },
   { src with bytes := src.bytes.drop n }, n)

/-- Model of `httpclient_res_xfer`: drain up to min(room, available) bytes
into `dst`; when the response buffer is emptied, release it and wake the
applet if it is attached.  Returns (client, dst, count, woke). -/
def httpclient_res_xfer (hc : HttpClient) (dst : RawBuf) :
    HttpClient × RawBuf × Nat × Bool :=
  let room := b_room dst
  let (dst1, src1, ret) :=
    b_force_xfer dst hc.res.buf (min room (b_data hc.res.buf))
  if b_data src1 = 0 then
    ({ hc with res := { hc.res with buf := b_free src1 } }, dst1, ret, hc.appctx)
  else
    ({ hc with res := { hc.res with buf := src1 } }, dst1, ret, false)

/-! ## Destination override (httpclient_set_dst) -/

/-- Model of `httpclient_set_dst`.  The old override is released first
(`sockaddr_free`), then the new string is parsed: the parse outcome of
the external `str2sa_range` and the success of `sockaddr_alloc` are
oracle inputs.  On any failure the call returns -1 with no override. -/
def httpclient_set_dst (hc : HttpClient) (parsed : Option String)
    (allocOk : Bool) : Int × HttpClient :=
  let hc1 := { hc with dst := none }
  match parsed with
  | none => (-1, hc1)
  | some sk =>
      if allocOk then (0, { hc1 with dst := some sk })
      else (-1, { hc1 with dst := none })

/-! ## URL splitting (httpclient_spliturl) -/

/-- Scheme enumeration (`enum http_scheme`). -/
inductive HttpScheme where
  | SCH_HTTP
  | SCH_HTTPS
deriving DecidableEq, Repr

/-- Characters allowed inside a URI scheme token. -/
def isSchemeChar (c : Char) : Bool :=
  c.isAlphanum || c = '+' || c = '-' || c = '.'

/-- Modelled from the spec: `http_parse_scheme` returns the scheme
including the "://" delimiter (so it can be compared with "http://"),
and the remainder; when the URL carries no scheme the first component is
empty and parsing restarts at the beginning. -/
def http_parse_scheme (url : List Char) : List Char × List Char :=
  let s := url.takeWhile isSchemeChar
  if s.length ≠ 0 && startsWithStr (url.drop s.length) ("://".toList) then
    (url.take (s.length + 3), url.drop (s.length + 3))
  else ([], url)

/-- Modelled from the spec: `http_parse_authority` takes the authority
component, up to the first path/query/fragment delimiter. -/
def http_parse_authority (rest : List Char) : List Char :=
  rest.takeWhile (fun c => !(c = '/' || c = '?' || c = '#'))

/-- The authority component of an absolute URL. -/
def authorityOf (url : List Char) : List Char :=
  http_parse_authority (http_parse_scheme url).2

/-- Model of the trailing-port scan of `httpclient_spliturl`: walk back
over digits from the end of the authority; if the character reached is a
colon, split there (the port digits may be empty, exactly as in the C
loop).  Returns the host and, when a colon was found, the digit tail. -/
def splitPortSuffix (a : List Char) : List Char × Option (List Char) :=
  if a.length = 0 then (a, none)
  else if (a.reverse.takeWhile Char.isDigit).length = a.length then (a, none)
  else if a.get? (a.length - (a.reverse.takeWhile Char.isDigit).length - 1) = some ':' then
    (a.take (a.length - (a.reverse.takeWhile Char.isDigit).length - 1),
     some (a.drop (a.length - (a.reverse.takeWhile Char.isDigit).length)))
  else (a, none)

/-- An authority carries a trailing colon marker exactly when it ends in
a colon followed by a (possibly empty) run of digits; this is the
syntactic condition under which the trailing-port scan strips a port. -/
def endsInColonDigits (a : List Char) : Prop :=
  ∃ hst ds : List Char, a = hst ++ ':' :: ds ∧ (∀ c ∈ ds, c.isDigit = true)

/-- Model of `atoi` on the digit tail (empty tail gives 0). -/
def natOfDigits (l : List Char) : Nat :=
  l.foldl (fun acc c => acc * 10 + (c.toNat - 48)) 0

/-- Result of `httpclient_spliturl`. -/
structure SplitUrl where
  scheme : HttpScheme
  host : List Char
  port : Nat
deriving DecidableEq, Repr

/-- The scheme comparison chain of `httpclient_spliturl`: `isteqi`
against "http://" then "https://", defaulting to http. -/
def schemeOfUrl (url : List Char) : HttpScheme :=
  if eqCI (http_parse_scheme url).1 ("http://".toList) then HttpScheme.SCH_HTTP
  else if eqCI (http_parse_scheme url).1 ("https://".toList) then HttpScheme.SCH_HTTPS
  else HttpScheme.SCH_HTTP

/-- The scheme-derived default port of `httpclient_spliturl`: 80 for
http, 443 for https, 0 when the URL carries no recognized scheme. -/
def schemeDefaultPort (url : List Char) : Nat :=
  if eqCI (http_parse_scheme url).1 ("http://".toList) then 80
  else if eqCI (http_parse_scheme url).1 ("https://".toList) then 443
  else 0

/-- Model of `httpclient_spliturl`: scheme-derived default port,
overridden by an explicit trailing port in the authority. -/
def httpclient_spliturl (url : List Char) : SplitUrl :=
  match splitPortSuffix (authorityOf url) with
  | (h, some ds) => ⟨schemeOfUrl url, h, natOfDigits ds⟩
  | (h, none) => ⟨schemeOfUrl url, h, schemeDefaultPort url⟩

/-! ## Request builder (httpclient_req_gen) -/

/-- The known-method table `http_known_methods`; `HTTP_METH_OTHER` has
index 8 and is rejected. -/
def httpMethods : List String :=
  ["OPTIONS", "GET", "HEAD", "POST", "PUT", "DELETE", "TRACE", "CONNECT"]

/-- Model of `HTTP_METH_OTHER`. -/
def HTTP_METH_OTHER : Nat := 8

/-- Modelled from the spec: `HTTPCLIENT_USERAGENT`, the fixed client
identifier string. -/
def httpclientUseragent : String := "HAProxy"

/-- Payload bytes of an ist (for data blocks). -/
def istBytes (i : Ist) : List Nat := (i.getD "").toList.map Char.toNat

/-- The header loop of `httpclient_req_gen`: walk the supplied array up
to its empty-name terminator; entries with a null value are skipped
(value check only); for the others, record whether Host / Accept /
User-Agent was seen (case-insensitively) and append the header, failing
if it does not fit. -/
def addHdrsLoop (h : Htx) (hdrs : List (String × Ist)) (fh fa fu : Bool) :
    Option (Htx × Bool × Bool × Bool) :=
  match hdrs with
  | [] => some (h, fh, fa, fu)
  | (n, v) :: rest =>
      if n.length = 0 then some (h, fh, fa, fu)
      else
        match v with
        | none => addHdrsLoop h rest fh fa fu
        | some vs =>
            let fh1 := fh || (lowerStr n = "host")
            let fa1 := fa || (lowerStr n = "accept")
            let fu1 := fu || (lowerStr n = "user-agent")
            match htx_add_header h n vs with
            | none => none
            | some h1 => addHdrsLoop h1 rest fh1 fa1 fu1

/-- Replace the value of the first Host-named header block. -/
def setFirstHost (blocks : List HtxBlk) (a : String) : List HtxBlk :=
  match blocks with
  | [] => []
  | b :: bs =>
      match b with
      | .hdr n v =>
          if lowerStr n = "host" then .hdr n a :: bs
          else .hdr n v :: setFirstHost bs a
      | _ => b :: setFirstHost bs a

/-- The authority of an absolute URL as a string. -/
def uriAuthority (url : String) : String :=
  String.mk (authorityOf url.toList)

/-- Modelled from the spec: `http_update_host` rewrites the placeholder
Host header value from the URL's authority; fails if the rewritten
message no longer fits. -/
def http_update_host (h : Htx) (url : String) : Option Htx :=
  let h1 := { h with blocks := setFirstHost h.blocks (uriAuthority url) }
  if h1.used ≤ h1.size then some h1 else none

/-- Model of `httpclient_req_gen`: allocate the request buffer, validate
the method, emit the start line, append the supplied headers, inject
Host (rewritten from the URL), Accept and User-Agent when absent, close
the headers, append an immediate payload if any, and mark end-of-message
unless a streaming-body callback is registered.  `none` models the
error return. -/
def httpclient_req_gen (hc : HttpClient) (url : String) (meth : Nat)
    (hdrs : List (String × Ist)) (payload : Ist)
    (allocOk : Bool) (bufsize : Nat) : Option HttpClient :=
  let obuf : Option Htx :=
    match hc.req.buf with
    | some h => some h
    | none => if allocOk then some (emptyHtx bufsize) else none
  match obuf with
  | none => none
  | some h0 =>
      if HTTP_METH_OTHER ≤ meth then none
      else
        let methIst := httpMethods.getD meth ""
        let bodyless := !hc.ops.req_payload && !isttest payload
        match htx_add_blk h0 (.reqSL methIst url "HTTP/1.1" bodyless) with
        | none => none
        | some h1 =>
            match addHdrsLoop h1 hdrs false false false with
            | none => none
            | some (h2, fh, fa, fu) =>
                let s3 : Option Htx :=
                  if fh then some h2
                  else (htx_add_header h2 "Host" "h").bind
                        (fun hh => http_update_host hh url)
                let s4 := s3.bind (fun h =>
                  if fa then some h else htx_add_header h "Accept" "*/*")
                let s5 := s4.bind (fun h =>
                  if fu then some h
                  else htx_add_header h "User-Agent" httpclientUseragent)
                let s6 := s5.bind htx_add_eoh
                let s7 := s6.bind (fun h =>
                  if isttest payload then htx_add_data_atonce h (istBytes payload)
                  else some h)
                s7.map (fun h =>
                  let h9 := if !hc.ops.req_payload then { h with eom := true } else h
                  { hc with req := { hc.req with buf := some h9 } })

/-! ## Streaming body append (httpclient_req_xfer) -/

/-- The outgoing buffer after the lazy `b_alloc` of
`httpclient_req_xfer`: kept as is when already allocated, freshly
allocated when absent and the allocation succeeds. -/
def reqXferBuf (hc : HttpClient) (allocOk : Bool) (bufsize : Nat) : Option Htx :=
  match hc.req.buf with
  | some h => some h
  | none => if allocOk then some (emptyHtx bufsize) else none

/-- Model of `httpclient_req_xfer`: wake the applet, append as many bytes
as fit and, when everything was consumed and `end` is set, mark
end-of-message, inserting an EOT marker first if the message is empty
(the error path of that insertion skips the end-of-message flag, as in
the C code).  Returns (client, consumed, woke). -/
def httpclient_req_xfer (hc : HttpClient) (src : List Nat) (endF : Bool)
    (allocOk : Bool) (bufsize : Nat) : HttpClient × Nat × Bool :=
  match reqXferBuf hc allocOk bufsize with
  | none => (hc, 0, false)
  | some h0 =>
      if src.length = (htx_add_data h0 src).2 && endF then
        if htx_is_empty (htx_add_data h0 src).1 then
          match htx_add_eot (htx_add_data h0 src).1 with
          | none =>
              ({ hc with req := { hc.req with buf := some (htx_add_data h0 src).1 } },
               (htx_add_data h0 src).2, hc.appctx)
          | some h2 =>
              ({ hc with req := { hc.req with buf := some { h2 with eom := true } } },
               (htx_add_data h0 src).2, hc.appctx)
        else
          ({ hc with req := { hc.req with
                buf := some { (htx_add_data h0 src).1 with eom := true } } },
           (htx_add_data h0 src).2, hc.appctx)
      else
        ({ hc with req := { hc.req with buf := some (htx_add_data h0 src).1 } },
         (htx_add_data h0 src).2, hc.appctx)

/-! ## State machine: channels and states -/

/-- The six applet states (`appctx->st0`). -/
inductive HCState where
  | REQ
  | REQ_BODY
  | RES_STLINE
  | RES_HDR
  | RES_BODY
  | RES_END
deriving DecidableEq, Repr

/-- Model of a stream channel shared with the host transport: an HTX
buffer, the committed output count (`co_data`) and the shutdown/EOI
flags relevant to the handler. -/
structure Channel where
  htx : Htx
  co : Nat
  shutr : Bool
  shutrNow : Bool
  shutw : Bool
  shutwNow : Bool
  eoi : Bool
deriving DecidableEq, Repr

/-- Model of `channel_is_empty`. -/
def channelIsEmpty (ch : Channel) : Bool := ch.htx.blocks.isEmpty && ch.co = 0

/-- How one pass of the io handler leaves: needing more data/room, having
data to process, or tearing the stream down (`goto end`). -/
inductive ExitK where
  | more
  | processData
  | endK
deriving DecidableEq, Repr

/-- The callback events the io handler itself can emit.  The handler
never invokes the end callback: that only happens in the applet release
hook. -/
inductive IoEvent where
  | stline
  | headers
  | bodyChunk
deriving DecidableEq, Repr

/-- The full callback alphabet, including the end callback fired by the
release hook. -/
inductive CbEvent where
  | stline
  | headers
  | bodyChunk
  | endCb
deriving DecidableEq, Repr

/-- Injection of handler events into the full callback alphabet. -/
def IoEvent.toCb : IoEvent → CbEvent
  | .stline => .stline
  | .headers => .headers
  | .bodyChunk => .bodyChunk

/-- The state threaded through the `while (1)` loop of the io handler. -/
structure LoopSt where
  st0 : HCState
  hc : HttpClient
  chReq : Channel
  chRes : Channel
deriving DecidableEq, Repr

/-- One switch-case outcome: updated state, an exit label if the case
left the loop, and the callback events it emitted. -/
structure LoopOut where
  s : LoopSt
  exit : Option ExitK
  events : List IoEvent
deriving DecidableEq, Repr

/-! ## State machine: the six cases -/

/-- The `HTTPCLIENT_S_REQ` case: move the whole request message into the
(empty) outbound channel buffer in one shot, release the client buffer
once drained, and pick the next state from the end-of-message flag;
always leaves through `goto more`. -/
def stepReq (s : LoopSt) : LoopOut :=
  match s.hc.req.buf with
  | none => ⟨s, some .more, []⟩
  | some h =>
      if h.blocks.isEmpty then ⟨s, some .more, []⟩
      else if s.chReq.htx.blocks.isEmpty then
        let hc1 := { s.hc with req := { s.hc.req with buf := none } }
        let ch1 := { s.chReq with
                      htx := { size := s.chReq.htx.size, blocks := h.blocks, eom := h.eom } }
        let st1 := if h.eom then HCState.RES_STLINE else HCState.REQ_BODY
        ⟨⟨st1, hc1, ch1, s.chRes⟩, some .more, []⟩
      else ⟨s, some .more, []⟩

/-- Modelled from the spec: `htx_xfer_blks` moves head blocks of the
source into the destination as long as they fit in the remaining room. -/
def xferBlksAux (cap used : Nat) (acc src : List HtxBlk) :
    List HtxBlk × List HtxBlk :=
  match src with
  | [] => (acc, [])
  | b :: bs =>
      if used + b.size ≤ cap then xferBlksAux cap (used + b.size) (acc ++ [b]) bs
      else (acc, b :: bs)

/-- The `HTTPCLIENT_S_REQ_BODY` case.  With a streaming callback
registered the producer refills the client buffer (its post-callback
content is the oracle `cbBuf`); the case then transfers the new blocks
into the channel buffer, copying end-of-message when the source drains,
and moves to `RES_STLINE` once the channel message is complete.  Always
leaves through `goto process_data` unless the refilled buffer is empty. -/
def stepReqBody (s : LoopSt) (cbBuf : Htx) : LoopOut :=
  if s.hc.ops.req_payload then
    let hc1 := { s.hc with req := { s.hc.req with buf := some cbBuf } }
    if htx_is_empty cbBuf then ⟨⟨s.st0, hc1, s.chReq, s.chRes⟩, some .more, []⟩
    else
      let chHtx := s.chReq.htx
      let moved :
          Htx × Option Htx :=
        if htx_is_empty chHtx then
          ({ size := chHtx.size, blocks := cbBuf.blocks, eom := cbBuf.eom }, none)
        else
          let pr := xferBlksAux chHtx.size chHtx.used chHtx.blocks cbBuf.blocks
          let rem := { cbBuf with blocks := pr.2 }
          let dst := { chHtx with blocks := pr.1 }
          let dst1 :=
            if htx_is_empty rem then { dst with eom := dst.eom || cbBuf.eom } else dst
          (dst1, if rem.blocks.isEmpty then none else some rem)
      let hc2 := { hc1 with req := { hc1.req with buf := moved.2 } }
      if moved.1.eom then
        ⟨⟨HCState.RES_STLINE, hc2,
          { s.chReq with htx := moved.1, eoi := true }, s.chRes⟩,
         some .processData, []⟩
      else
        ⟨⟨s.st0, hc2, { s.chReq with htx := moved.1 }, s.chRes⟩,
         some .processData, []⟩
  else
    if s.chReq.htx.eom then
      ⟨⟨HCState.RES_STLINE, s.hc, { s.chReq with eoi := true }, s.chRes⟩,
       some .processData, []⟩
    else ⟨s, some .processData, []⟩

/-- The `HTTPCLIENT_S_RES_STLINE` case: require committed inbound data
and a response start-line block at the head; copy status / version /
reason into the client, rewind and remove the block, fire the
status-line callback, and go on to `RES_HDR` (or `RES_END` when the
message is already complete and empty). -/
def stepResStline (s : LoopSt) : LoopOut :=
  if s.chRes.co = 0 then ⟨s, some .more, []⟩
  else
    match s.chRes.htx.blocks with
    | HtxBlk.resSL vsn status reason isResp :: rest =>
        if isResp then
          let hc1 := { s.hc with res :=
            { s.hc.res with status := status, vsn := some vsn, reason := some reason } }
          let ch1 := { s.chRes with
                        htx := { s.chRes.htx with blocks := rest },
                        co := s.chRes.co - (HtxBlk.resSL vsn status reason isResp).size }
          let evs := if s.hc.ops.res_stline then [IoEvent.stline] else []
          let st1 := if rest.isEmpty && s.chRes.htx.eom then HCState.RES_END
                     else HCState.RES_HDR
          ⟨⟨st1, hc1, s.chReq, ch1⟩, none, evs⟩
        else ⟨s, some .more, []⟩
    | _ => ⟨s, some .more, []⟩

/-! ## State machine: header extraction (RES_HDR) -/

/-- The result of the RES_HDR block loop over the local `hdrs[]` array:
the (name, value) pairs collected in order, whether the end-of-headers
marker was reached (and the sentinel written), the write indices into
the local array in program order, the blocks left in the channel buffer,
and the total rewind amount. -/
structure HdrLoopRes where
  entries : List (String × String)
  sentinel : Bool
  writes : List Nat
  rest : List HtxBlk
  rew : Nat
deriving DecidableEq, Repr

/-- The RES_HDR block loop of the io handler: every visited block is
rewound and removed; header blocks are copied into the local array at
the running index `k` (the C code performs no bound check against the
array capacity); the end-of-headers block writes the null sentinel at
index `k` and leaves the loop. -/
def resHdrLoop : List HtxBlk → Nat → HdrLoopRes
  | [], _ => ⟨[], false, [], [], 0⟩
  | b :: bs, k =>
      match b with
      | .hdr n v =>
          let r := resHdrLoop bs (k + 1)
          ⟨(n, v) :: r.entries, r.sentinel, k :: r.writes, r.rest,
           (HtxBlk.hdr n v).size + r.rew⟩
      | .eoh => ⟨[], true, [k], bs, HtxBlk.eoh.size⟩
      | _ =>
          let r := resHdrLoop bs k
          ⟨r.entries, r.sentinel, r.writes, r.rest, b.size + r.rew⟩

/-- The number of header blocks before the first end-of-headers marker. -/
def hdrCountBeforeEoh : List HtxBlk → Nat
  | [] => 0
  | b :: bs =>
      match b with
      | .hdr _ _ => hdrCountBeforeEoh bs + 1
      | .eoh => 0
      | _ => hdrCountBeforeEoh bs

/-- Whether an end-of-headers marker occurs in the block sequence. -/
def eohFound : List HtxBlk → Bool
  | [] => false
  | b :: bs =>
      match b with
      | .eoh => true
      | _ => eohFound bs

/-- The `HTTPCLIENT_S_RES_HDR` case: run the block loop; when at least
one header was collected, allocate the array sized count+1 (allocation
failure tears the stream down), copy the collected entries plus whatever
the loop left in the final slot, and fire the headers callback; then go
on to `RES_BODY` (or `RES_END` when the message is complete and empty). -/
def stepResHdr (s : LoopSt) (allocOk : Bool) : LoopOut :=
  if s.chRes.co = 0 then ⟨s, some .more, []⟩
  else
    let r := resHdrLoop s.chRes.htx.blocks 0
    let ch1 := { s.chRes with
                  htx := { s.chRes.htx with blocks := r.rest },
                  co := s.chRes.co - r.rew }
    let st1 := if r.rest.isEmpty && s.chRes.htx.eom then HCState.RES_END
               else HCState.RES_BODY
    if r.entries.length ≠ 0 then
      if allocOk then
        let arr := r.entries.map (fun p => HdrSlot.entry p.1 p.2) ++
                   [if r.sentinel then HdrSlot.sentinel else HdrSlot.uninit]
        let hc1 := { s.hc with res := { s.hc.res with hdrs := some arr } }
        ⟨⟨st1, hc1, s.chReq, ch1⟩, none,
         if s.hc.ops.res_headers then [IoEvent.headers] else []⟩
      else ⟨⟨s.st0, s.hc, s.chReq, ch1⟩, some .endK, []⟩
    else ⟨⟨st1, s.hc, s.chReq, ch1⟩, none, []⟩

/-! ## State machine: body extraction (RES_BODY) -/

/-- The RES_BODY block loop: for each block compute the copyable length
(committed data, block size and buffer room); a zero length pauses the
loop; data blocks are copied (consuming only part of the block when it
does not fit) with the body-chunk callback fired per copy; other block types
are discarded when they fit entirely.  Returns the remaining blocks, the
committed count, the response buffer, the events, and whether the loop
paused (`goto process_data`). -/
def resBodyLoop (blks : List HtxBlk) (co : Nat) (buf : RawBuf) (cb : Bool) :
    List HtxBlk × Nat × RawBuf × List IoEvent × Bool :=
  match blks with
  | [] => ([], co, buf, [], false)
  | b :: bs =>
      let blksz := b.size
      let vlen := min (min co blksz) (b_room buf)
      if vlen = 0 then (b :: bs, co, buf, [], true)
      else
        match b with
        | .data bytes =>
            let buf1 := { buf with bytes := buf.bytes ++ bytes.take vlen }
            let co1 := co - vlen
            let evs := if cb then [IoEvent.bodyChunk] else []
            if vlen = blksz then
              let r := resBodyLoop bs co1 buf1 cb
              (r.1, r.2.1, r.2.2.1, evs ++ r.2.2.2.1, r.2.2.2.2)
            else (HtxBlk.data (bytes.drop vlen) :: bs, co1, buf1, evs, true)
        | _ =>
            if vlen ≠ blksz then (b :: bs, co, buf, [], true)
            else
              let r := resBodyLoop bs (co - blksz) buf cb
              (r.1, r.2.1, r.2.2.1, r.2.2.2.1, r.2.2.2.2)

/-- The `HTTPCLIENT_S_RES_BODY` case: require committed data and a
non-empty message, lazily allocate the response buffer, pause when it is
already full, then run the block loop; once the message is fully drained
with end-of-message set, move to `RES_END`. -/
def stepResBody (s : LoopSt) (allocOk : Bool) (bufsize : Nat) : LoopOut :=
  if s.chRes.co = 0 then ⟨s, some .more, []⟩
  else if s.chRes.htx.blocks.isEmpty then ⟨s, some .more, []⟩
  else
    let obuf : Option RawBuf :=
      if s.hc.res.buf.size ≠ 0 then some s.hc.res.buf
      else if allocOk then some ⟨bufsize, []⟩ else none
    match obuf with
    | none => ⟨s, some .more, []⟩
    | some buf0 =>
        if b_room buf0 = 0 then
          ⟨⟨s.st0, { s.hc with res := { s.hc.res with buf := buf0 } },
            s.chReq, s.chRes⟩, some .processData, []⟩
        else
          let r := resBodyLoop s.chRes.htx.blocks s.chRes.co buf0 s.hc.ops.res_payload
          let hc1 := { s.hc with res := { s.hc.res with buf := r.2.2.1 } }
          let ch1 := { s.chRes with
                        htx := { s.chRes.htx with blocks := r.1 }, co := r.2.1 }
          if r.2.2.2.2 then
            ⟨⟨s.st0, hc1, s.chReq, ch1⟩, some .processData, r.2.2.2.1⟩
          else if r.1.isEmpty && s.chRes.htx.eom then
            ⟨⟨HCState.RES_END, hc1, s.chReq, ch1⟩, none, r.2.2.2.1⟩
          else ⟨⟨s.st0, hc1, s.chReq, ch1⟩, some .more, r.2.2.2.1⟩

/-! ## State machine: dispatch and the while loop -/

/-- The per-wake oracle inputs: whether a cooperative stop was requested
since the last wake, the channel states as left by the host transport,
the producer-refilled request buffer for the streaming callback, an
allocation oracle and the buffer size. -/
structure IoIn where
  stopReq : Bool
  chReq : Channel
  chRes : Channel
  cbReqBuf : Htx
  allocOk : Bool
  bufsize : Nat
deriving DecidableEq, Repr

/-- One iteration of the handler's `while (1)` loop: the stop flag is
checked first and short-circuits to teardown; otherwise the current
state's case runs. -/
def ioStep (s : LoopSt) (i : IoIn) : LoopOut :=
  if s.hc.flags.stop then ⟨s, some .endK, []⟩
  else
    match s.st0 with
    | .REQ => stepReq s
    | .REQ_BODY => stepReqBody s i.cbReqBuf
    | .RES_STLINE => stepResStline s
    | .RES_HDR => stepResHdr s i.allocOk
    | .RES_BODY => stepResBody s i.allocOk i.bufsize
    | .RES_END => ⟨s, some .endK, []⟩

/-- The fuelled `while (1)` loop; within one wake-up the state only walks
forward through the response chain, so any fuel of at least six performs
all available work. -/
def ioLoop : Nat → LoopSt → IoIn → LoopSt × Option ExitK × List IoEvent
  | 0, s, _ => (s, none, [])
  | Nat.succ fuel, s, i =>
      let o := ioStep s i
      match o.exit with
      | some e => (o.s, some e, o.events)
      | none =>
          let r := ioLoop fuel o.s i
          (r.1, r.2.1, o.events ++ r.2.2)

/-- The shutdown test on the `more` exit path: nothing left to handle and
a shutdown observed on either direction. -/
def shutdownCond (s : LoopSt) : Bool :=
  s.chReq.shutr || s.chReq.shutrNow || s.chRes.shutw ||
  (s.chRes.shutwNow && channelIsEmpty s.chRes)

/-- The loop fuel used by a single wake-up of the applet. -/
def ioFuel : Nat := 8

/-- The applet state across wake-ups: the loop state plus whether the
applet has torn the stream down (after which the host releases it and it
is never woken again). -/
structure IoSt where
  s : LoopSt
  dead : Bool
deriving DecidableEq, Repr

/-- One wake-up of `httpclient_applet_io_handler`: fold the stop request
into the flags, take the channel states from the host, run the loop and
decide from its exit label whether the applet tears down. -/
def ioWake (st : IoSt) (i : IoIn) : IoSt × List IoEvent :=
  if st.dead then (st, [])
  else
    let hc0 := { st.s.hc with
                  flags := { st.s.hc.flags with
                              stop := st.s.hc.flags.stop || i.stopReq } }
    let s0 : LoopSt := ⟨st.s.st0, hc0, i.chReq, i.chRes⟩
    let r := ioLoop ioFuel s0 i
    match r.2.1 with
    | some .endK => (⟨r.1, true⟩, r.2.2)
    | some .more =>
        if r.1.st0 = HCState.RES_END || shutdownCond r.1 then (⟨r.1, true⟩, r.2.2)
        else (⟨r.1, false⟩, r.2.2)
    | some .processData => (⟨r.1, false⟩, r.2.2)
    | none => (⟨r.1, false⟩, r.2.2)

/-! ## Applet init and release hooks -/

/-- The observable outcome of a successful `httpclient_applet_init`. -/
structure InitRes where
  st0 : HCState
  started : Bool
  appctxSet : Bool
  dstOnFront : Bool
deriving DecidableEq, Repr

/-- Model of `httpclient_applet_init`: split the URL, pick the
destination (explicit override, literal address, or deferred resolution
on the frontend side), choose the raw or TLS server by scheme (TLS
unavailability is fatal), finalize the stream (which hands over the
already-built request buffer), then mark the client started and set the
first state: `REQ_BODY` with a streaming callback, `RES_STLINE`
otherwise.  External facilities (`str2ip2`, `sockaddr_alloc`,
`appctx_finalize_startup`, TLS server presence) are oracle inputs. -/
def httpclient_applet_init (hc : HttpClient)
    (ipParseOk sslAvail allocOk finalizeOk : Bool) : Option InitRes :=
  let doresolve := if hc.dst.isSome then false else !ipParseOk
  if !allocOk then none
  else
    let su := httpclient_spliturl (hc.req.url.getD "").toList
    let schemeOk :=
      match su.scheme with
      | .SCH_HTTP => true
      | .SCH_HTTPS => sslAvail
    if !schemeOk then none
    else if !finalizeOk then none
    else
      some ⟨(if hc.ops.req_payload then HCState.REQ_BODY else HCState.RES_STLINE),
            true, true, doresolve⟩

/-- Model of `httpclient_applet_release`: mark the client ended, detach
the applet back-reference, invoke the end callback when registered, and
destroy the client when autokill was requested. -/
def httpclient_applet_release (hc : HttpClient) : HttpClient × List CbEvent :=
  let hc1 := { hc with flags := { hc.flags with ended := true }, appctx := false }
  let evs := if hc.ops.res_end then [CbEvent.endCb] else []
  if hc1.flags.autokill then
    ((httpclient_destroy hc1).getD hc1, evs)
  else (hc1, evs)

/-- The applet state and accumulated handler events after a sequence of
wake-ups. -/
def runWakes : IoSt → List IoIn → IoSt × List IoEvent
  | st, [] => (st, [])
  | st, i :: rest =>
      let r := ioWake st i
      let r2 := runWakes r.1 rest
      (r2.1, r.2 ++ r2.2)

/-- The callback trace of a whole task life: the handler events of every
wake-up (the applet is woken no more once it tore down), followed by the
events of the release hook, which the host runs exactly once when the
applet exits. -/
def runTask (st : IoSt) (ins : List IoIn) : List CbEvent :=
  (runWakes st ins).2.map IoEvent.toCb ++
  (httpclient_applet_release (runWakes st ins).1.s.hc).2

/-! ## Derived observation functions used by the theorems -/

/-- Values of the header blocks carrying a given (lowercase) name. -/
def hdrValuesNamed (blocks : List HtxBlk) (name : String) : List String :=
  blocks.filterMap (fun b =>
    match b with
    | .hdr n v => if lowerStr n = name then some v else none
    | _ => none)

/-- The header entries of the supplied array that the builder loop
actually processes: up to the empty-name terminator, dropping entries
whose value is null. -/
def processedValued (hdrs : List (String × Ist)) : List (String × String) :=
  (hdrs.takeWhile (fun p => p.1.length ≠ 0)).filterMap
    (fun p => p.2.map (fun v => (p.1, v)))

/-- Values of the processed supplied headers carrying a given
(lowercase) name. -/
def suppliedValued (hdrs : List (String × Ist)) (name : String) : List String :=
  (processedValued hdrs).filterMap
    (fun p => if lowerStr p.1 = name then some p.2 else none)

/-- Whether a block is a header block named (case-insensitively) host. -/
def isHostHdr (b : HtxBlk) : Bool :=
  match b with
  | .hdr n _ => lowerStr n = "host"
  | _ => false

/-! ## Concrete fixtures for the witnesses -/

/-- A freshly created client for a GET on an absolute http URL. -/
def hcFresh : HttpClient := httpclient_new true 1 (some "http://example.test/path")

/-- A client whose task has started and ended. -/
def hcEnded : HttpClient := { hcFresh with flags := ⟨true, true, false, false⟩ }

/-- A client with three response bytes pending and an applet attached. -/
def hcDrain : HttpClient :=
  { hcFresh with res := { hcFresh.res with buf := ⟨8, [1, 2, 3]⟩ }, appctx := true }

/-- A client carrying a previously set destination override. -/
def hcDst : HttpClient := { hcFresh with dst := some "192.168.0.1:80" }

/-- An idle channel. -/
def chEmpty : Channel := ⟨emptyHtx 100, 0, false, false, false, false, false⟩

/-- A response channel holding two headers and the end-of-headers
marker, all committed. -/
def chHdr : Channel :=
  ⟨⟨100, [HtxBlk.hdr "a" "b", HtxBlk.hdr "c" "d", HtxBlk.eoh], true⟩,
   20, false, false, false, false, false⟩

/-- A loop state entering the header-extraction phase. -/
def sHdr : LoopSt := ⟨HCState.RES_HDR, hcFresh, chEmpty, chHdr⟩

/-- An applet state for a client with an end callback registered. -/
def ioStEx : IoSt :=
  ⟨⟨HCState.RES_STLINE,
    { hcFresh with ops := { hcFresh.ops with res_end := true } },
    chEmpty, chEmpty⟩, false⟩

/-! ## Sanity examples (concrete evaluations of the model) -/

example : httpclient_spliturl ("http://example.test/path".toList) =
    ⟨HttpScheme.SCH_HTTP, "example.test".toList, 80⟩ := by decide

example : httpclient_spliturl ("https://h:8443/x".toList) =
    ⟨HttpScheme.SCH_HTTPS, "h".toList, 8443⟩ := by decide

example : httpclient_spliturl ("h/x".toList) =
    ⟨HttpScheme.SCH_HTTP, "h".toList, 0⟩ := by decide

example : httpclient_spliturl ("http://h:".toList) =
    ⟨HttpScheme.SCH_HTTP, "h".toList, 0⟩ := by decide

/-! ## C2: lifecycle safety of destroy -/

/-- C2: for every client, `httpclient_destroy` fails the fatal assertion
exactly when the STARTED flag is set and the ENDED flag is not; when the
flags are all clear or ENDED is set it succeeds, releasing the URL, both
buffers, the header array and the destination override. -/
theorem destroy_assert_iff (hc : HttpClient) :
    (httpclient_destroy hc = none ↔
      (httpclient_started hc = true ∧ httpclient_ended hc = false)) ∧
    ((hc.flags = ⟨false, false, false, false⟩ ∨ httpclient_ended hc = true) →
      httpclient_destroy hc = some (clearedClient hc) ∧
      (clearedClient hc).req.url = none ∧
      (clearedClient hc).req.buf = none ∧
      (clearedClient hc).res.hdrs = none ∧
      (clearedClient hc).res.buf = bufNull ∧
      (clearedClient hc).dst = none) := by
  obtain ⟨req, res, dst, tmo, ops, caller, appctx, st, en, sp, ak⟩ := hc
  cases st <;> cases en <;>
    simp [httpclient_destroy, httpclient_started, httpclient_ended,
          clearedClient, bufNull, HcFlags.mk.injEq]

/-- Witness for C2 at a started-and-ended client: destroy succeeds and
clears everything. -/
theorem destroy_assert_iff_witness :
    httpclient_destroy hcEnded = some (clearedClient hcEnded) ∧
    (clearedClient hcEnded).dst = none :=
  ⟨((destroy_assert_iff hcEnded).2 (Or.inr (by decide))).1,
   ((destroy_assert_iff hcEnded).2 (Or.inr (by decide))).2.2.2.2.2⟩

/-! ## C10: non-atomic destination override update -/

/-- C10: `httpclient_set_dst` releases the stored override before
parsing, so on a parse or allocation failure it returns -1 and the
client is left with no destination override at all, whatever override it
had before. -/
theorem set_dst_failure (hc : HttpClient) (parsed : Option String)
    (allocOk : Bool) (h : parsed = none ∨ allocOk = false) :
    (httpclient_set_dst hc parsed allocOk).1 = -1 ∧
    (httpclient_set_dst hc parsed allocOk).2.dst = none := by
  rcases parsed with _ | sk <;> rcases h with h | h <;>
    simp_all [httpclient_set_dst]

/-- Witness for C10: a client holding an old override loses it on a
failed parse. -/
theorem set_dst_failure_witness :
    (httpclient_set_dst hcDst none true).1 = -1 ∧
    (httpclient_set_dst hcDst none true).2.dst = none :=
  set_dst_failure hcDst none true (Or.inl rfl)

/-! ## C6: response drain -/

/-- C6: `httpclient_res_xfer` moves exactly min(room, available) bytes
into the destination and returns that count; with a zero-room
destination or an empty response buffer it returns 0 without corrupting
the response buffer; and when the response buffer is empty after the
transfer it is released and the applet (when attached) is woken. -/
theorem res_xfer_spec (hc : HttpClient) (dst : RawBuf) :
    (httpclient_res_xfer hc dst).2.2.1 = min (b_room dst) (b_data hc.res.buf) ∧
    (httpclient_res_xfer hc dst).2.1.bytes =
      dst.bytes ++ hc.res.buf.bytes.take (min (b_room dst) (b_data hc.res.buf)) ∧
    (b_room dst = 0 → b_data hc.res.buf ≠ 0 →
      (httpclient_res_xfer hc dst).2.2.1 = 0 ∧
      (httpclient_res_xfer hc dst).1.res.buf = hc.res.buf) ∧
    (b_data hc.res.buf = 0 →
      (httpclient_res_xfer hc dst).2.2.1 = 0 ∧
      (httpclient_res_xfer hc dst).1.res.buf = bufNull) ∧
    (hc.res.buf.bytes.drop (min (b_room dst) (b_data hc.res.buf)) = [] →
      (httpclient_res_xfer hc dst).1.res.buf = bufNull ∧
      (hc.appctx = true → (httpclient_res_xfer hc dst).2.2.2 = true)) := by
  have hmin : min (min (b_room dst) (b_data hc.res.buf)) (b_data hc.res.buf)
      = min (b_room dst) (b_data hc.res.buf) := by
    rw [Nat.min_assoc, Nat.min_self]
  unfold httpclient_res_xfer b_force_xfer
  simp only [b_data] at hmin ⊢
  rw [hmin]
  by_cases hdrop :
      (hc.res.buf.bytes.drop (min (b_room dst) hc.res.buf.bytes.length)).length = 0
  · rw [if_pos hdrop]
    refine ⟨rfl, rfl, ?_, ?_, ?_⟩
    · intro hroom hdata
      exfalso
      rw [hroom] at hdrop
      simp only [Nat.zero_min, List.drop_zero] at hdrop
      exact hdata hdrop
    · intro hdata
      rw [hdata]
      exact ⟨by simp, rfl⟩
    · intro _
      exact ⟨rfl, fun ha => ha⟩
  · rw [if_neg hdrop]
    refine ⟨rfl, rfl, ?_, ?_, ?_⟩
    · intro hroom _
      rw [hroom]
      refine ⟨by simp, ?_⟩
      simp only [Nat.zero_min, List.drop_zero]
    · intro hdata
      exfalso
      apply hdrop
      have hb : hc.res.buf.bytes = [] := List.length_eq_zero.mp hdata
      rw [hb]
      simp
    · intro hd
      exfalso
      exact hdrop (by rw [hd]; rfl)

/-- Witness for C6: draining three pending bytes into a destination with
room empties and releases the response buffer and wakes the applet. -/
theorem res_xfer_spec_witness :
    b_data hcDrain.res.buf = 3 ∧
    (httpclient_res_xfer hcDrain ⟨4, [9]⟩).1.res.buf = bufNull ∧
    (httpclient_res_xfer hcDrain ⟨4, [9]⟩).2.2.2 = true := by
  refine ⟨by decide, ?_, ?_⟩
  · exact ((res_xfer_spec hcDrain ⟨4, [9]⟩).2.2.2.2 (by decide)).1
  · exact ((res_xfer_spec hcDrain ⟨4, [9]⟩).2.2.2.2 (by decide)).2 (by decide)

/-! ## C9: URL splitting -/

/-- Helper: a run of digits followed by a non-digit is exactly what
`takeWhile isDigit` collects. -/
theorem takeWhile_digits_append (xs : List Char) (c : Char) (ys : List Char)
    (hxs : ∀ x ∈ xs, x.isDigit = true) (hc : c.isDigit = false) :
    (xs ++ c :: ys).takeWhile Char.isDigit = xs := by
  induction xs with
  | nil => simp [List.takeWhile_cons, hc]
  | cons a tl ih =>
      have ha : a.isDigit = true := hxs a (by simp)
      simp only [List.cons_append, List.takeWhile_cons, ha]
      simp [ih (fun x hx => hxs x (by simp [hx]))]

/-- Helper: an authority without any colon is returned whole, with no
explicit port. -/
theorem splitPort_noColon (a : List Char) (h : ':' ∉ a) :
    splitPortSuffix a = (a, none) := by
  unfold splitPortSuffix
  by_cases h0 : a.length = 0
  · rw [if_pos h0]
  · rw [if_neg h0]
    by_cases h1 : (a.reverse.takeWhile Char.isDigit).length = a.length
    · rw [if_pos h1]
    · rw [if_neg h1]
      rw [if_neg]
      intro hcol
      exact h (List.get?_mem hcol)

/-- Helper: an authority ending in a colon followed by a non-empty run
of digits is split into the host and that digit run. -/
theorem splitPort_suffix (hst ds : List Char) (hne : ds ≠ [])
    (hdig : ∀ c ∈ ds, c.isDigit = true) :
    splitPortSuffix (hst ++ ':' :: ds) = (hst, some ds) := by
  have hrev : (hst ++ ':' :: ds).reverse = ds.reverse ++ ':' :: hst.reverse := by
    simp
  have htw : ((hst ++ ':' :: ds).reverse.takeWhile Char.isDigit) = ds.reverse := by
    rw [hrev]
    exact takeWhile_digits_append ds.reverse ':' hst.reverse
      (fun x hx => hdig x (List.mem_reverse.mp hx)) (by decide)
  have hlds : ds.length ≠ 0 := by
    intro h0
    exact hne (List.length_eq_zero.mp h0)
  have hlen : (hst ++ ':' :: ds).length = hst.length + ds.length + 1 := by
    simp [List.length_append]
    omega
  unfold splitPortSuffix
  rw [htw, List.length_reverse]
  rw [if_neg (by rw [hlen]; omega)]
  rw [if_neg (by rw [hlen]; omega)]
  have hidx : (hst ++ ':' :: ds).length - ds.length - 1 = hst.length := by
    rw [hlen]; omega
  have hdrop : (hst ++ ':' :: ds).length - ds.length = hst.length + 1 := by
    rw [hlen]; omega
  rw [hidx, hdrop]
  rw [if_pos (by rw [List.get?_append_right (le_refl hst.length)]; simp)]
  have hsplit : hst ++ ':' :: ds = (hst ++ [':']) ++ ds := by simp
  have htake : (hst ++ ':' :: ds).take hst.length = hst := by
    have := List.take_left hst (':' :: ds)
    simpa using this
  have hdrop2 : (hst ++ ':' :: ds).drop (hst.length + 1) = ds := by
    rw [hsplit]
    have := List.drop_left (hst ++ [':']) ds
    simpa using this
  rw [htake, hdrop2]

/-- Helper: an authority ending in a bare colon is split there, with an
empty digit run. -/
theorem splitPort_bareColon (hst : List Char) :
    splitPortSuffix (hst ++ [':']) = (hst, some []) := by
  have hrev : (hst ++ [':']).reverse = ':' :: hst.reverse := by simp
  have htw : ((hst ++ [':']).reverse.takeWhile Char.isDigit) = [] := by
    rw [hrev]
    simp [List.takeWhile_cons]
  have hlen : (hst ++ [':']).length = hst.length + 1 := by simp
  unfold splitPortSuffix
  rw [htw]
  simp only [List.length_nil]
  rw [if_neg (by rw [hlen]; omega)]
  rw [if_neg (by rw [hlen]; omega)]
  have hidx : (hst ++ [':']).length - 0 - 1 = hst.length := by rw [hlen]; omega
  have hidx2 : (hst ++ [':']).length - 0 = hst.length + 1 := by rw [hlen]; omega
  rw [hidx, hidx2]
  rw [if_pos (by rw [List.get?_append_right (le_refl hst.length)]; simp)]
  have htake : (hst ++ [':']).take hst.length = hst := by
    have := List.take_left hst [':']
    simpa using this
  have hdrop2 : (hst ++ [':']).drop (hst.length + 1) = [] := by
    apply List.drop_eq_nil_of_le
    rw [hlen]
  rw [htake, hdrop2]

/-- Helper: parsing the scheme of an http URL. -/
theorem parse_scheme_http (r : List Char) :
    http_parse_scheme ("http://".toList ++ r) = ("http://".toList, r) := rfl

/-- Helper: parsing the scheme of an https URL. -/
theorem parse_scheme_https (r : List Char) :
    http_parse_scheme ("https://".toList ++ r) = ("https://".toList, r) := rfl

/-- Helper: the TRAILING-port scan is complete: it either finds no
marker and returns the authority whole, or the authority ends in a
colon followed by a run of digits and the scan splits exactly there. -/
theorem splitPort_cases (a : List Char) :
    splitPortSuffix a = (a, none) ∨
    ∃ hst ds : List Char, a = hst ++ ':' :: ds ∧ (∀ c ∈ ds, c.isDigit = true) ∧
      splitPortSuffix a = (hst, some ds) := by
  by_cases h0 : a.length = 0
  · left
    unfold splitPortSuffix
    rw [if_pos h0]
  by_cases h1 : (a.reverse.takeWhile Char.isDigit).length = a.length
  · left
    unfold splitPortSuffix
    rw [if_neg h0, if_pos h1]
  by_cases h2 : a.get? (a.length - (a.reverse.takeWhile Char.isDigit).length - 1)
      = some ':'
  · right
    have hmle : (a.reverse.takeWhile Char.isDigit).length ≤ a.length := by
      obtain ⟨rest, hrest⟩ :=
        (List.takeWhile_prefix Char.isDigit :
          a.reverse.takeWhile Char.isDigit <+: a.reverse)
      have hlen := congrArg List.length hrest
      rw [List.length_append, List.length_reverse] at hlen
      omega
    have hmlt : (a.reverse.takeWhile Char.isDigit).length < a.length :=
      Nat.lt_of_le_of_ne hmle h1
    have hilt : a.length - (a.reverse.takeWhile Char.isDigit).length - 1
        < a.length := by omega
    refine ⟨a.take (a.length - (a.reverse.takeWhile Char.isDigit).length - 1),
           a.drop (a.length - (a.reverse.takeWhile Char.isDigit).length),
           ?_, ?_, ?_⟩
    · have hgetelem :
          a.get ⟨a.length - (a.reverse.takeWhile Char.isDigit).length - 1, hilt⟩
            = ':' := by
        rw [List.get?_eq_get hilt] at h2
        injection h2
      have hip : a.length - (a.reverse.takeWhile Char.isDigit).length
          = a.length - (a.reverse.takeWhile Char.isDigit).length - 1 + 1 := by
        omega
      nth_rewrite 2 [hip]
      rw [← hgetelem, List.cons_get_drop_succ, List.take_append_drop]
    · intro c hc
      have hr : a.drop (a.length - (a.reverse.takeWhile Char.isDigit).length)
          = (a.reverse.take (a.reverse.takeWhile Char.isDigit).length).reverse := by
        have h3 := List.rtake_eq_reverse_take_reverse a
          (a.reverse.takeWhile Char.isDigit).length
        rw [List.rtake] at h3
        exact h3
      have htake : a.reverse.take (a.reverse.takeWhile Char.isDigit).length
          = a.reverse.takeWhile Char.isDigit :=
        (List.prefix_iff_eq_take.mp
          (List.takeWhile_prefix Char.isDigit :
            a.reverse.takeWhile Char.isDigit <+: a.reverse)).symm
      rw [hr, htake] at hc
      exact List.mem_takeWhile_imp (List.mem_reverse.mp hc)
    · unfold splitPortSuffix
      rw [if_neg h0, if_neg h1, if_pos h2]
  · left
    unfold splitPortSuffix
    rw [if_neg h0, if_neg h1, if_neg h2]

/-- Helper: an authority with no trailing colon marker is returned
whole, with no explicit port. -/
theorem splitPort_none_of_not_marker (a : List Char)
    (h : ¬ endsInColonDigits a) : splitPortSuffix a = (a, none) := by
  rcases splitPort_cases a with hc | ⟨hst, ds, heq, hdig, _⟩
  · exact hc
  · exact absurd ⟨hst, ds, heq, hdig⟩ h

/-- Helper: an authority without any colon carries no trailing colon
marker. -/
theorem not_endsInColonDigits_of_noColon (a : List Char) (h : ':' ∉ a) :
    ¬ endsInColonDigits a := by
  rintro ⟨hst, ds, heq, -⟩
  apply h
  rw [heq]
  simp

/-- Helper: a decidable scan over all colon positions establishes the
absence of a trailing colon marker, so concrete witnesses can discharge
the hypothesis by evaluation. -/
theorem not_endsInColonDigits_of_scan (a : List Char)
    (h : ((List.range a.length).all
      (fun i => !(decide (a.get? i = some ':') &&
                  (a.drop (i + 1)).all Char.isDigit))) = true) :
    ¬ endsInColonDigits a := by
  rintro ⟨hst, ds, heq, hdig⟩
  have hlen : a.length = hst.length + ds.length + 1 := by
    rw [heq]
    simp [List.length_append]
    omega
  have hi : hst.length < a.length := by omega
  have hcol : a.get? hst.length = some ':' := by
    rw [heq, List.get?_append_right (le_refl hst.length)]
    simp
  have hdrop : a.drop (hst.length + 1) = ds := by
    rw [heq, show hst ++ ':' :: ds = (hst ++ [':']) ++ ds by simp]
    have h4 := List.drop_left (hst ++ [':']) ds
    simpa using h4
  have happ := List.all_eq_true.mp h hst.length (List.mem_range.mpr hi)
  rw [hcol, hdrop] at happ
  rw [List.all_eq_true.mpr (fun c hc => hdig c hc)] at happ
  simp at happ

/-- C9 (amended): for every request URL the split yields scheme http
with port 80 for an http:// URL and scheme https with port 443 for an
https:// URL whenever the authority does not end in a colon followed by
a (possibly empty) run of digits; any URL whose scheme is not https
yields scheme http; an authority ending in a colon followed by digits
overrides the port with that value and the host excludes the suffix;
and an authority ending in a bare colon also strips the colon but
yields port 0 (atoi of the empty digit string) instead of the scheme
default. -/
theorem spliturl_spec :
    (∀ r : List Char, ¬ endsInColonDigits (http_parse_authority r) →
      httpclient_spliturl ("http://".toList ++ r) =
        ⟨HttpScheme.SCH_HTTP, http_parse_authority r, 80⟩) ∧
    (∀ r : List Char, ¬ endsInColonDigits (http_parse_authority r) →
      httpclient_spliturl ("https://".toList ++ r) =
        ⟨HttpScheme.SCH_HTTPS, http_parse_authority r, 443⟩) ∧
    (∀ url : List Char,
      eqCI (http_parse_scheme url).1 ("https://".toList) = false →
      (httpclient_spliturl url).scheme = HttpScheme.SCH_HTTP) ∧
    (∀ url hst ds : List Char, authorityOf url = hst ++ ':' :: ds →
      ds ≠ [] → (∀ c ∈ ds, c.isDigit = true) →
      (httpclient_spliturl url).host = hst ∧
      (httpclient_spliturl url).port = natOfDigits ds) ∧
    (∀ url hst : List Char, authorityOf url = hst ++ [':'] →
      (httpclient_spliturl url).host = hst ∧
      (httpclient_spliturl url).port = 0) := by
  refine ⟨?_, ?_, ?_, ?_, ?_⟩
  · intro r hnm
    have hauth : authorityOf ("http://".toList ++ r) = http_parse_authority r := by
      unfold authorityOf
      rw [parse_scheme_http]
    have h1 : (http_parse_scheme ("http://".toList ++ r)).1 = "http://".toList := by
      rw [parse_scheme_http]
    have hsch : schemeOfUrl ("http://".toList ++ r) = HttpScheme.SCH_HTTP := by
      unfold schemeOfUrl
      rw [h1, if_pos (by decide)]
    have hport : schemeDefaultPort ("http://".toList ++ r) = 80 := by
      unfold schemeDefaultPort
      rw [h1, if_pos (by decide)]
    unfold httpclient_spliturl
    rw [hauth, splitPort_none_of_not_marker _ hnm, hsch, hport]
  · intro r hnm
    have hauth : authorityOf ("https://".toList ++ r) = http_parse_authority r := by
      unfold authorityOf
      rw [parse_scheme_https]
    have h1 : (http_parse_scheme ("https://".toList ++ r)).1 = "https://".toList := by
      rw [parse_scheme_https]
    have hsch : schemeOfUrl ("https://".toList ++ r) = HttpScheme.SCH_HTTPS := by
      unfold schemeOfUrl
      rw [h1, if_neg (by decide), if_pos (by decide)]
    have hport : schemeDefaultPort ("https://".toList ++ r) = 443 := by
      unfold schemeDefaultPort
      rw [h1, if_neg (by decide), if_pos (by decide)]
    unfold httpclient_spliturl
    rw [hauth, splitPort_none_of_not_marker _ hnm, hsch, hport]
  · intro url h
    have hs : schemeOfUrl url = HttpScheme.SCH_HTTP := by
      unfold schemeOfUrl
      rw [h]
      split <;> simp
    unfold httpclient_spliturl
    rcases hsp : splitPortSuffix (authorityOf url) with ⟨hh, od⟩
    rcases od with _ | ds <;> simp [hs]
  · intro url hst ds heq hne hdig
    unfold httpclient_spliturl
    rw [heq, splitPort_suffix hst ds hne hdig]
    exact ⟨rfl, rfl⟩
  · intro url hst heq
    unfold httpclient_spliturl
    rw [heq, splitPort_bareColon hst]
    exact ⟨rfl, rfl⟩

/-- Counterexample for C9 as frozen: the URL "http://h:" starts with
http:// and its authority does not end in a colon followed by digits,
yet the port is 0 (atoi of the empty string), not the scheme-derived 80;
the host still excludes the colon. -/
theorem spliturl_bare_colon_counterexample :
    httpclient_spliturl ("http://h:".toList) =
      ⟨HttpScheme.SCH_HTTP, "h".toList, 0⟩ ∧
    (httpclient_spliturl ("http://h:".toList)).port ≠ 80 := by decide

/-- Witness for C9 at concrete URLs: the default http port without any
colon, the default port with a colon in the path, in the userinfo, and
before a non-digit tail, an explicit port, and the scheme default. -/
theorem spliturl_spec_witness :
    (httpclient_spliturl ("http://example.test/path".toList)).port = 80 ∧
    (httpclient_spliturl ("http://h/a:b".toList)).port = 80 ∧
    (httpclient_spliturl ("http://u:p@h".toList)).port = 80 ∧
    (httpclient_spliturl ("http://h:123x".toList)).port = 80 ∧
    (httpclient_spliturl ("https://h:8443/x".toList)).port = 8443 ∧
    (httpclient_spliturl ("h/x".toList)).scheme = HttpScheme.SCH_HTTP := by
  refine ⟨?_, ?_, ?_, ?_, ?_, ?_⟩
  · have h2 : "http://example.test/path".toList =
        "http://".toList ++ "example.test/path".toList := by decide
    rw [h2, spliturl_spec.1 ("example.test/path".toList)
      (not_endsInColonDigits_of_scan _ (by decide))]
  · have h2 : "http://h/a:b".toList = "http://".toList ++ "h/a:b".toList := by
      decide
    rw [h2, spliturl_spec.1 ("h/a:b".toList)
      (not_endsInColonDigits_of_scan _ (by decide))]
  · have h2 : "http://u:p@h".toList = "http://".toList ++ "u:p@h".toList := by
      decide
    rw [h2, spliturl_spec.1 ("u:p@h".toList)
      (not_endsInColonDigits_of_scan _ (by decide))]
  · have h2 : "http://h:123x".toList = "http://".toList ++ "h:123x".toList := by
      decide
    rw [h2, spliturl_spec.1 ("h:123x".toList)
      (not_endsInColonDigits_of_scan _ (by decide))]
  · exact (spliturl_spec.2.2.2.1 ("https://h:8443/x".toList) ("h".toList)
      ("8443".toList) (by decide) (by decide) (by decide)).2
  · exact spliturl_spec.2.2.1 ("h/x".toList) (by decide)

/-! ## C4: header defaulting in the request builder -/

/-- Helper: a successful block append appends the block and changes
nothing else. -/
theorem htx_add_blk_spec (h : Htx) (b : HtxBlk) (h1 : Htx)
    (hg : htx_add_blk h b = some h1) :
    h1.blocks = h.blocks ++ [b] ∧ h1.size = h.size ∧ h1.eom = h.eom := by
  unfold htx_add_blk at hg
  split at hg
  · cases hg
    exact ⟨rfl, rfl, rfl⟩
  · cases hg

/-- Helper: a successful host rewrite replaces the first Host header
value with the URL's authority and changes nothing else. -/
theorem http_update_host_spec (h : Htx) (url : String) (h1 : Htx)
    (hg : http_update_host h url = some h1) :
    h1.blocks = setFirstHost h.blocks (uriAuthority url) ∧
    h1.size = h.size ∧ h1.eom = h.eom := by
  simp only [http_update_host] at hg
  split at hg
  · cases hg
    exact ⟨rfl, rfl, rfl⟩
  · cases hg

/-- Helper: the processed list stops at an empty-name terminator. -/
theorem processedValued_cons_term (n : String) (v : Ist)
    (tl : List (String × Ist)) (hn : n.length = 0) :
    processedValued ((n, v) :: tl) = [] := by
  simp [processedValued, List.takeWhile_cons, hn]

/-- Helper: a null-valued entry is skipped by the processed list. -/
theorem processedValued_cons_none (n : String) (tl : List (String × Ist))
    (hn : n.length ≠ 0) :
    processedValued ((n, (none : Ist)) :: tl) = processedValued tl := by
  simp [processedValued, List.takeWhile_cons, hn]

/-- Helper: a valued entry heads the processed list. -/
theorem processedValued_cons_some (n vs : String) (tl : List (String × Ist))
    (hn : n.length ≠ 0) :
    processedValued ((n, some vs) :: tl) = (n, vs) :: processedValued tl := by
  simp [processedValued, List.takeWhile_cons, hn]

/-- Helper: the supplied values of a name for a cons cell. -/
theorem supplied_cons_some (n vs : String) (tl : List (String × Ist))
    (name : String) (hn : n.length ≠ 0) :
    suppliedValued ((n, some vs) :: tl) name =
      (if lowerStr n = name then vs :: suppliedValued tl name
       else suppliedValued tl name) := by
  unfold suppliedValued
  rw [processedValued_cons_some n vs tl hn]
  rw [List.filterMap_cons]
  split <;> split <;> simp_all

/-- Helper: emptiness of the branchy cons of supplied values. -/
theorem not_isEmpty_ite (c : Prop) [Decidable c] (vs : String)
    (l : List String) :
    (!(if c then vs :: l else l).isEmpty) = (decide c || !l.isEmpty) := by
  by_cases hc : c <;> simp [hc]

/-- Helper: full description of the builder's header loop on success:
the processed valued headers are appended in order, the buffer geometry
is unchanged, and each found-flag records whether the corresponding name
occurs among the processed valued headers. -/
theorem addHdrsLoop_spec :
    ∀ (hdrs : List (String × Ist)) (h : Htx) (fh fa fu : Bool)
      (out : Htx × Bool × Bool × Bool),
      addHdrsLoop h hdrs fh fa fu = some out →
      out.1.blocks =
        h.blocks ++ (processedValued hdrs).map (fun p => HtxBlk.hdr p.1 p.2) ∧
      out.1.size = h.size ∧ out.1.eom = h.eom ∧
      out.2.1 = (fh || !(suppliedValued hdrs "host").isEmpty) ∧
      out.2.2.1 = (fa || !(suppliedValued hdrs "accept").isEmpty) ∧
      out.2.2.2 = (fu || !(suppliedValued hdrs "user-agent").isEmpty) := by
  intro hdrs
  induction hdrs with
  | nil =>
      intro h fh fa fu out hg
      simp only [addHdrsLoop, Option.some.injEq] at hg
      subst hg
      simp [processedValued, suppliedValued]
  | cons p tl ih =>
      obtain ⟨n, v⟩ := p
      intro h fh fa fu out hg
      simp only [addHdrsLoop] at hg
      by_cases hn : n.length = 0
      · rw [if_pos hn] at hg
        simp only [Option.some.injEq] at hg
        subst hg
        simp [processedValued_cons_term n v tl hn, suppliedValued]
      · rw [if_neg hn] at hg
        rcases v with _ | vs
        · simp only [] at hg
          have hr := ih h fh fa fu out hg
          have hsup : ∀ name, suppliedValued ((n, (none : Ist)) :: tl) name =
              suppliedValued tl name := by
            intro name
            unfold suppliedValued
            rw [processedValued_cons_none n tl hn]
          rw [processedValued_cons_none n tl hn, hsup, hsup, hsup]
          exact hr
        · simp only [] at hg
          cases hADD : htx_add_header h n vs with
          | none => rw [hADD] at hg; cases hg
          | some h1 =>
              rw [hADD] at hg
              simp only [] at hg
              have hblk := htx_add_blk_spec h (.hdr n vs) h1 hADD
              have hr := ih h1 _ _ _ out hg
              refine ⟨?_, ?_, ?_, ?_, ?_, ?_⟩
              · rw [hr.1, hblk.1, processedValued_cons_some n vs tl hn]
                simp
              · rw [hr.2.1, hblk.2.1]
              · rw [hr.2.2.1, hblk.2.2]
              · rw [hr.2.2.2.1, supplied_cons_some n vs tl "host" hn,
                    not_isEmpty_ite]
                rw [Bool.or_assoc]
              · rw [hr.2.2.2.2.1, supplied_cons_some n vs tl "accept" hn,
                    not_isEmpty_ite]
                rw [Bool.or_assoc]
              · rw [hr.2.2.2.2.2, supplied_cons_some n vs tl "user-agent" hn,
                    not_isEmpty_ite]
                rw [Bool.or_assoc]

/-- Helper: header values distribute over block-list append. -/
theorem hdrValues_append (l1 l2 : List HtxBlk) (name : String) :
    hdrValuesNamed (l1 ++ l2) name =
      hdrValuesNamed l1 name ++ hdrValuesNamed l2 name := by
  simp [hdrValuesNamed]

/-- Helper: header values of a singleton header block. -/
theorem hdrValues_single (nm v name : String) :
    hdrValuesNamed [HtxBlk.hdr nm v] name =
      (if lowerStr nm = name then [v] else []) := by
  simp only [hdrValuesNamed, List.filterMap_cons, List.filterMap_nil]
  split <;> simp_all

/-- Helper: a start-line block carries no header value. -/
theorem hdrValues_reqSL (m u v : String) (bo : Bool) (name : String) :
    hdrValuesNamed [HtxBlk.reqSL m u v bo] name = [] := rfl

/-- Helper: an end-of-headers block carries no header value. -/
theorem hdrValues_eoh (name : String) :
    hdrValuesNamed [HtxBlk.eoh] name = [] := rfl

/-- Helper: a data block carries no header value. -/
theorem hdrValues_data (bs : List Nat) (name : String) :
    hdrValuesNamed [HtxBlk.data bs] name = [] := rfl

/-- Helper: header values of mapped header pairs. -/
theorem hdrValues_mapHdr (ps : List (String × String)) (name : String) :
    hdrValuesNamed (ps.map (fun p => HtxBlk.hdr p.1 p.2)) name =
      ps.filterMap (fun p => if lowerStr p.1 = name then some p.2 else none) := by
  induction ps with
  | nil => rfl
  | cons a tl ih =>
      simp only [List.map_cons, hdrValuesNamed, List.filterMap_cons] at ih ⊢
      split <;> simp_all

/-- Helper: header values of the mapped processed supplied headers are
exactly the supplied values of that name. -/
theorem hdrValues_mapProcessed (hdrs : List (String × Ist)) (name : String) :
    hdrValuesNamed
      ((processedValued hdrs).map (fun p => HtxBlk.hdr p.1 p.2)) name =
      suppliedValued hdrs name :=
  hdrValues_mapHdr (processedValued hdrs) name

/-- Helper: the first-host rewrite walks over blocks that are not
host-named headers. -/
theorem setFirstHost_append_noHost (l rest : List HtxBlk) (a : String)
    (hl : ∀ b ∈ l, isHostHdr b = false) :
    setFirstHost (l ++ rest) a = l ++ setFirstHost rest a := by
  induction l with
  | nil => simp
  | cons b tl ih =>
      have hb := hl b (by simp)
      have htl := ih (fun x hx => hl x (by simp [hx]))
      cases b with
      | hdr n v =>
          simp only [isHostHdr, decide_eq_false_iff_not] at hb
          simp only [List.cons_append, setFirstHost]
          rw [if_neg hb]
          exact congrArg (List.cons _) htl
      | reqSL m u vv bo =>
          simp only [List.cons_append, setFirstHost]
          exact congrArg (List.cons _) htl
      | resSL vv st rs ir =>
          simp only [List.cons_append, setFirstHost]
          exact congrArg (List.cons _) htl
      | eoh =>
          simp only [List.cons_append, setFirstHost]
          exact congrArg (List.cons _) htl
      | data bs =>
          simp only [List.cons_append, setFirstHost]
          exact congrArg (List.cons _) htl
      | eot =>
          simp only [List.cons_append, setFirstHost]
          exact congrArg (List.cons _) htl

/-- Helper: rewriting the placeholder Host header. -/
theorem setFirstHost_placeholder (rest : List HtxBlk) (v a : String) :
    setFirstHost (HtxBlk.hdr "Host" v :: rest) a =
      HtxBlk.hdr "Host" a :: rest := by
  simp only [setFirstHost]
  rw [if_pos (by decide)]

/-- Helper: when no host header was supplied, the mapped processed
headers contain no host-named header block. -/
theorem mapHdr_noHost (hdrs : List (String × Ist))
    (hsup : suppliedValued hdrs "host" = []) :
    ∀ b ∈ (processedValued hdrs).map (fun p => HtxBlk.hdr p.1 p.2),
      isHostHdr b = false := by
  intro b hb
  rcases List.mem_map.mp hb with ⟨p, hp, rfl⟩
  unfold suppliedValued at hsup
  have hnone := List.filterMap_eq_nil.mp hsup p hp
  simp only [isHostHdr, decide_eq_false_iff_not]
  intro hname
  rw [if_pos hname] at hnone
  cases hnone

/-- Helper: effect of one optional header-injection stage on the header
values of a name. -/
theorem hdrValues_stage (c : Prop) [Decidable c] (h3 h4 : Htx)
    (nm vv name : String)
    (hs : (if c then some h3 else htx_add_header h3 nm vv) = some h4) :
    hdrValuesNamed h4.blocks name =
      hdrValuesNamed h3.blocks name ++
        (if c then [] else (if lowerStr nm = name then [vv] else [])) := by
  by_cases hc : c
  · rw [if_pos hc] at hs ⊢
    cases hs
    simp
  · rw [if_neg hc] at hs ⊢
    have hb := htx_add_blk_spec h3 (.hdr nm vv) h4 hs
    rw [hb.1, hdrValues_append, hdrValues_single]

/-- Helper: the end-of-headers stage keeps all header values. -/
theorem hdrValues_eohStage (h5 h6 : Htx) (name : String)
    (hs : htx_add_eoh h5 = some h6) :
    hdrValuesNamed h6.blocks name = hdrValuesNamed h5.blocks name := by
  have hb := htx_add_blk_spec h5 .eoh h6 hs
  rw [hb.1, hdrValues_append, hdrValues_eoh, List.append_nil]

/-- Helper: the optional payload stage keeps all header values. -/
theorem hdrValues_payloadStage (c : Prop) [Decidable c] (h6 h7 : Htx)
    (bs : List Nat) (name : String)
    (hs : (if c then htx_add_data_atonce h6 bs else some h6) = some h7) :
    hdrValuesNamed h7.blocks name = hdrValuesNamed h6.blocks name := by
  by_cases hc : c
  · rw [if_pos hc] at hs
    have hb := htx_add_blk_spec h6 (.data bs) h7 hs
    rw [hb.1, hdrValues_append, hdrValues_data, List.append_nil]
  · rw [if_neg hc] at hs
    cases hs
    rfl

/-- C4: for every successful `httpclient_req_gen` call on a fresh
client, when the supplied header list carries no Host / Accept /
User-Agent header (case-insensitively, counting only entries with a
non-null value), the built request contains exactly one of each: a Host
header whose value is the URL's authority, an Accept header valued */*
and a User-Agent header with the fixed client identifier; and for each
of the three names that was supplied, the built request carries exactly
the supplied values, with nothing injected. -/
theorem req_gen_defaults (hc : HttpClient) (url : String) (meth : Nat)
    (hdrs : List (String × Ist)) (payload : Ist) (allocOk : Bool)
    (bufsize : Nat) (hcOut : HttpClient) (h : Htx)
    (h0 : hc.req.buf = none)
    (hg : httpclient_req_gen hc url meth hdrs payload allocOk bufsize = some hcOut)
    (hb : hcOut.req.buf = some h) :
    (suppliedValued hdrs "host" = [] →
      hdrValuesNamed h.blocks "host" = [uriAuthority url]) ∧
    (suppliedValued hdrs "accept" = [] →
      hdrValuesNamed h.blocks "accept" = ["*/*"]) ∧
    (suppliedValued hdrs "user-agent" = [] →
      hdrValuesNamed h.blocks "user-agent" = [httpclientUseragent]) ∧
    (suppliedValued hdrs "host" ≠ [] →
      hdrValuesNamed h.blocks "host" = suppliedValued hdrs "host") ∧
    (suppliedValued hdrs "accept" ≠ [] →
      hdrValuesNamed h.blocks "accept" = suppliedValued hdrs "accept") ∧
    (suppliedValued hdrs "user-agent" ≠ [] →
      hdrValuesNamed h.blocks "user-agent" = suppliedValued hdrs "user-agent") := by
  simp only [httpclient_req_gen, h0] at hg
  cases allocOk with
  | false => simp at hg
  | true =>
      simp only [if_pos] at hg
      split at hg
      · exact Option.noConfusion hg
      split at hg
      · exact Option.noConfusion hg
      rename_i h1 hSL
      split at hg
      · exact Option.noConfusion hg
      rename_i h2 fh fa fu hAH
      rw [Option.map_eq_some'] at hg
      obtain ⟨h7, hchain, hfout⟩ := hg
      simp only [Option.bind_eq_some] at hchain
      obtain ⟨h6, ⟨h5, ⟨h4, ⟨h3, hs3, hs4⟩, hs5⟩, hs6⟩, hs7⟩ := hchain
      have hb1 := htx_add_blk_spec _ _ _ hSL
      have hAH2 := addHdrsLoop_spec hdrs h1 false false false (h2, fh, fa, fu) hAH
      have hfh : fh = !(suppliedValued hdrs "host").isEmpty := by
        have := hAH2.2.2.2.1
        simpa using this
      have hfa : fa = !(suppliedValued hdrs "accept").isEmpty := by
        have := hAH2.2.2.2.2.1
        simpa using this
      have hfu : fu = !(suppliedValued hdrs "user-agent").isEmpty := by
        have := hAH2.2.2.2.2.2
        simpa using this
      have hblocks2 : h2.blocks =
          [HtxBlk.reqSL (httpMethods.getD meth "") url "HTTP/1.1"
            (!hc.ops.req_payload && !isttest payload)] ++
          (processedValued hdrs).map (fun p => HtxBlk.hdr p.1 p.2) := by
        rw [hAH2.1, hb1.1]
        rw [show (emptyHtx bufsize).blocks = [] from rfl, List.nil_append]
      have hhb : h.blocks = h7.blocks := by
        rw [← hfout] at hb
        simp only [Option.some.injEq] at hb
        split at hb <;> rw [← hb]
      have hval : ∀ name, hdrValuesNamed h.blocks name =
          (hdrValuesNamed h3.blocks name ++
            (if fa = true then [] else
              if lowerStr "Accept" = name then ["*/*"] else [])) ++
            (if fu = true then [] else
              if lowerStr "User-Agent" = name then [httpclientUseragent] else []) := by
        intro name
        rw [hhb, hdrValues_payloadStage (isttest payload = true) h6 h7
              (istBytes payload) name hs7,
            hdrValues_eohStage h5 h6 name hs6,
            hdrValues_stage (fu = true) h4 h5 "User-Agent" httpclientUseragent name hs5,
            hdrValues_stage (fa = true) h3 h4 "Accept" "*/*" name hs4]
      have h3val : ∀ name,
          (suppliedValued hdrs "host" = [] →
            hdrValuesNamed h3.blocks name =
              suppliedValued hdrs name ++
                (if lowerStr "Host" = name then [uriAuthority url] else [])) ∧
          (suppliedValued hdrs "host" ≠ [] →
            hdrValuesNamed h3.blocks name = suppliedValued hdrs name) := by
        intro name
        constructor
        · intro hsupH
          have hfh0 : fh = false := by rw [hfh, hsupH]; rfl
          rw [hfh0] at hs3
          rw [if_neg Bool.false_ne_true] at hs3
          rw [Option.bind_eq_some] at hs3
          obtain ⟨hh, hhh, hupd⟩ := hs3
          have hhb2 := htx_add_blk_spec _ _ _ hhh
          have hub := http_update_host_spec _ _ _ hupd
          rw [hub.1, hhb2.1, hblocks2]
          have hl : ∀ b ∈
              [HtxBlk.reqSL (httpMethods.getD meth "") url "HTTP/1.1"
                (!hc.ops.req_payload && !isttest payload)] ++
              (processedValued hdrs).map (fun p => HtxBlk.hdr p.1 p.2),
              isHostHdr b = false := by
            intro b hb2
            rcases List.mem_append.mp hb2 with hsl | hmem
            · rcases List.mem_singleton.mp hsl with rfl
              rfl
            · exact mapHdr_noHost hdrs hsupH b hmem
          rw [setFirstHost_append_noHost _ _ _ hl, setFirstHost_placeholder]
          rw [hdrValues_append, hdrValues_append, hdrValues_reqSL,
              hdrValues_mapProcessed, hdrValues_single, List.nil_append]
        · intro hsupH
          have hfh1 : fh = true := by
            rw [hfh]
            rcases hl : suppliedValued hdrs "host" with _ | ⟨x, xs⟩
            · exact absurd hl hsupH
            · rfl
          rw [hfh1] at hs3
          rw [if_pos rfl] at hs3
          cases hs3
          rw [hblocks2, hdrValues_append, hdrValues_reqSL,
              hdrValues_mapProcessed, List.nil_append]
      refine ⟨?_, ?_, ?_, ?_, ?_, ?_⟩
      · intro hsupH
        rw [hval "host", (h3val "host").1 hsupH, hsupH,
            if_pos (show lowerStr "Host" = "host" by decide)]
        cases fa <;> cases fu <;>
          simp [show ¬(lowerStr "Accept" = "host") by decide,
                show ¬(lowerStr "User-Agent" = "host") by decide]
      · intro hsupA
        have hfa0 : fa = false := by rw [hfa, hsupA]; rfl
        rw [hval "accept", hfa0]
        by_cases hH : suppliedValued hdrs "host" = []
        · rw [(h3val "accept").1 hH, hsupA]
          cases fu <;>
            simp [show ¬(lowerStr "Host" = "accept") by decide,
                  show lowerStr "Accept" = "accept" by decide,
                  show ¬(lowerStr "User-Agent" = "accept") by decide]
        · rw [(h3val "accept").2 hH, hsupA]
          cases fu <;>
            simp [show lowerStr "Accept" = "accept" by decide,
                  show ¬(lowerStr "User-Agent" = "accept") by decide]
      · intro hsupU
        have hfu0 : fu = false := by rw [hfu, hsupU]; rfl
        rw [hval "user-agent", hfu0]
        by_cases hH : suppliedValued hdrs "host" = []
        · rw [(h3val "user-agent").1 hH, hsupU]
          cases fa <;>
            simp [show ¬(lowerStr "Host" = "user-agent") by decide,
                  show ¬(lowerStr "Accept" = "user-agent") by decide,
                  show lowerStr "User-Agent" = "user-agent" by decide]
        · rw [(h3val "user-agent").2 hH, hsupU]
          cases fa <;>
            simp [show ¬(lowerStr "Accept" = "user-agent") by decide,
                  show lowerStr "User-Agent" = "user-agent" by decide]
      · intro hsupH
        rw [hval "host", (h3val "host").2 hsupH]
        cases fa <;> cases fu <;>
          simp [show ¬(lowerStr "Accept" = "host") by decide,
                show ¬(lowerStr "User-Agent" = "host") by decide]
      · intro hsupA
        have hfa1 : fa = true := by
          rw [hfa]
          rcases hl : suppliedValued hdrs "accept" with _ | ⟨x, xs⟩
          · exact absurd hl hsupA
          · rfl
        rw [hval "accept", hfa1]
        by_cases hH : suppliedValued hdrs "host" = []
        · rw [(h3val "accept").1 hH]
          cases fu <;>
            simp [show ¬(lowerStr "Host" = "accept") by decide,
                  show ¬(lowerStr "User-Agent" = "accept") by decide]
        · rw [(h3val "accept").2 hH]
          cases fu <;>
            simp [show ¬(lowerStr "User-Agent" = "accept") by decide]
      · intro hsupU
        have hfu1 : fu = true := by
          rw [hfu]
          rcases hl : suppliedValued hdrs "user-agent" with _ | ⟨x, xs⟩
          · exact absurd hl hsupU
          · rfl
        rw [hval "user-agent", hfu1]
        by_cases hH : suppliedValued hdrs "host" = []
        · rw [(h3val "user-agent").1 hH]
          cases fa <;>
            simp [show ¬(lowerStr "Host" = "user-agent") by decide,
                  show ¬(lowerStr "Accept" = "user-agent") by decide]
        · rw [(h3val "user-agent").2 hH]
          cases fa <;>
            simp [show ¬(lowerStr "Accept" = "user-agent") by decide]

/-- Witness for C4 at a concrete client with no supplied headers. -/
theorem req_gen_defaults_witness :
    hdrValuesNamed
      ((((httpclient_req_gen hcFresh "http://example.test/path" 1 [] none true
            1000).getD hcFresh).req.buf.getD (emptyHtx 0)).blocks) "host" =
      [uriAuthority "http://example.test/path"] ∧
    hdrValuesNamed
      ((((httpclient_req_gen hcFresh "http://example.test/path" 1 [] none true
            1000).getD hcFresh).req.buf.getD (emptyHtx 0)).blocks) "accept" =
      ["*/*"] ∧
    hdrValuesNamed
      ((((httpclient_req_gen hcFresh "http://example.test/path" 1 [] none true
            1000).getD hcFresh).req.buf.getD (emptyHtx 0)).blocks) "user-agent" =
      [httpclientUseragent] ∧
    uriAuthority "http://example.test/path" = "example.test" := by
  have hres := req_gen_defaults hcFresh "http://example.test/path" 1 [] none
    true 1000
    ((httpclient_req_gen hcFresh "http://example.test/path" 1 [] none true
        1000).getD hcFresh)
    (((httpclient_req_gen hcFresh "http://example.test/path" 1 [] none true
        1000).getD hcFresh).req.buf.getD (emptyHtx 0))
    rfl (by rfl) (by rfl)
  exact ⟨hres.1 rfl, hres.2.1 rfl, hres.2.2.1 rfl, by decide⟩

/-! ## C5: streaming body append -/

/-- C5: `httpclient_req_xfer` never consumes more than the input length;
on an allocated buffer it consumes exactly min(input, free space), so a
buffer lacking room is a strict backpressure signal; and when the whole
input was consumed with the final flag set, the end-of-message flag is
set on a never-empty message, with an EOT marker present whenever the
message held no content after the append. -/
theorem req_xfer_spec (hc : HttpClient) (src : List Nat) (endF : Bool)
    (allocOk : Bool) (bufsize : Nat) :
    (httpclient_req_xfer hc src endF allocOk bufsize).2.1 ≤ src.length ∧
    (∀ h0 : Htx, reqXferBuf hc allocOk bufsize = some h0 →
      (httpclient_req_xfer hc src endF allocOk bufsize).2.1 =
        min src.length h0.free ∧
      (h0.free < src.length →
        (httpclient_req_xfer hc src endF allocOk bufsize).2.1 < src.length)) ∧
    (∀ h0 : Htx, reqXferBuf hc allocOk bufsize = some h0 → 1 ≤ h0.size →
      (httpclient_req_xfer hc src endF allocOk bufsize).2.1 = src.length →
      endF = true →
      ((httpclient_req_xfer hc src endF allocOk bufsize).1.req.buf.map Htx.eom =
        some true ∧
       (httpclient_req_xfer hc src endF allocOk bufsize).1.req.buf.map
         (fun x => x.blocks.isEmpty) = some false ∧
       ((htx_add_data h0 src).1.blocks = [] →
        (httpclient_req_xfer hc src endF allocOk bufsize).1.req.buf.map
          (fun x => x.blocks.contains HtxBlk.eot) = some true))) := by
  have hdata : ∀ h0 : Htx, (htx_add_data h0 src).2 = min src.length h0.free := by
    intro h0
    unfold htx_add_data
    dsimp only
    split
    · rename_i hz
      exact hz.symm
    · rfl
  have hsize1 : ∀ h0 : Htx, (htx_add_data h0 src).1.size = h0.size := by
    intro h0
    unfold htx_add_data
    dsimp only
    split
    · rfl
    · rfl
  cases hbuf : reqXferBuf hc allocOk bufsize with
  | none =>
      have hzero : (httpclient_req_xfer hc src endF allocOk bufsize).2.1 = 0 := by
        unfold httpclient_req_xfer
        rw [hbuf]
      refine ⟨by rw [hzero]; exact Nat.zero_le _, ?_, ?_⟩
      · intro h0 hh
        exact Option.noConfusion hh
      · intro h0 hh
        exact Option.noConfusion hh
  | some h0 =>
      have hret : (httpclient_req_xfer hc src endF allocOk bufsize).2.1 =
          min src.length h0.free := by
        unfold httpclient_req_xfer
        rw [hbuf]
        simp only []
        repeat' split
        all_goals simp [hdata]
      refine ⟨?_, ?_, ?_⟩
      · rw [hret]
        exact Nat.min_le_left _ _
      · intro h0x hh
        obtain rfl : h0 = h0x := by injection hh
        refine ⟨hret, ?_⟩
        intro hlt
        rw [hret, Nat.min_eq_right (Nat.le_of_lt hlt)]
        exact hlt
      · intro h0x hh hsz hlen hend
        obtain rfl : h0 = h0x := by injection hh
        have hminlen : min src.length h0.free = src.length := by
          rw [← hret]
          exact hlen
        have hcond : (src.length = (htx_add_data h0 src).2 && endF) = true := by
          rw [hdata h0, hminlen, hend]
          simp
        unfold httpclient_req_xfer
        rw [hbuf]
        simp only []
        rw [if_pos hcond]
        by_cases hempty : htx_is_empty (htx_add_data h0 src).1
        · rw [if_pos hempty]
          have hblk0 : (htx_add_data h0 src).1.blocks = [] := by
            unfold htx_is_empty at hempty
            exact List.isEmpty_iff.mp hempty
          have hfree : HtxBlk.eot.size ≤ (htx_add_data h0 src).1.free := by
            unfold Htx.free Htx.used
            rw [hblk0, hsize1 h0]
            simpa [HtxBlk.size] using hsz
          have heot : htx_add_eot (htx_add_data h0 src).1 =
              some { (htx_add_data h0 src).1 with
                      blocks := (htx_add_data h0 src).1.blocks ++ [HtxBlk.eot] } := by
            unfold htx_add_eot htx_add_blk
            rw [if_pos hfree]
          rw [heot]
          refine ⟨rfl, ?_, ?_⟩
          · simp [hblk0]
          · intro _
            simp [hblk0]
        · rw [if_neg hempty]
          refine ⟨rfl, ?_, ?_⟩
          · simp only [Option.map_some', Option.some.injEq]
            unfold htx_is_empty at hempty
            simpa using hempty
          · intro hb0
            exfalso
            apply hempty
            unfold htx_is_empty
            rw [hb0]
            rfl

/-- Witness for C5: three bytes fully consumed with the final flag set on
a fresh client mark end-of-message on a non-empty message. -/
theorem req_xfer_spec_witness :
    (httpclient_req_xfer hcFresh [1, 2, 3] true true 16).2.1 = 3 ∧
    (httpclient_req_xfer hcFresh [1, 2, 3] true true 16).1.req.buf.map Htx.eom =
      some true ∧
    (httpclient_req_xfer hcFresh [1, 2, 3] true true 16).1.req.buf.map
      (fun x => x.blocks.isEmpty) = some false := by
  have h := (req_xfer_spec hcFresh [1, 2, 3] true true 16).2.2 (emptyHtx 16)
    rfl (by decide) (by rfl) rfl
  exact ⟨by rfl, h.1, h.2.1⟩

/-! ## C1: bounded header extraction -/

/-- Helper: every index the RES_HDR loop writes is bounded by the
starting index plus the number of headers before end-of-headers. -/
theorem resHdrLoop_writes_le :
    ∀ (blks : List HtxBlk) (k : Nat),
      ∀ i ∈ (resHdrLoop blks k).writes, i ≤ k + hdrCountBeforeEoh blks := by
  intro blks
  induction blks with
  | nil =>
      intro k i hi
      simp [resHdrLoop] at hi
  | cons b tl ih =>
      intro k i hi
      cases b with
      | hdr n v =>
          simp only [resHdrLoop] at hi
          rcases List.mem_cons.mp hi with rfl | hmem
          · simp only [hdrCountBeforeEoh]
            omega
          · have := ih (k + 1) i hmem
            simp only [hdrCountBeforeEoh]
            omega
      | eoh =>
          simp only [resHdrLoop] at hi
          rcases List.mem_singleton.mp hi with rfl
          simp only [hdrCountBeforeEoh]
          omega
      | reqSL m u v bo =>
          have := ih k i (by simpa [resHdrLoop] using hi)
          simpa [hdrCountBeforeEoh] using this
      | resSL v st rs ir =>
          have := ih k i (by simpa [resHdrLoop] using hi)
          simpa [hdrCountBeforeEoh] using this
      | data bs =>
          have := ih k i (by simpa [resHdrLoop] using hi)
          simpa [hdrCountBeforeEoh] using this
      | eot =>
          have := ih k i (by simpa [resHdrLoop] using hi)
          simpa [hdrCountBeforeEoh] using this

/-- Helper: the loop collects exactly the headers before end-of-headers. -/
theorem resHdrLoop_entries_length :
    ∀ (blks : List HtxBlk) (k : Nat),
      (resHdrLoop blks k).entries.length = hdrCountBeforeEoh blks := by
  intro blks
  induction blks with
  | nil => intro k; rfl
  | cons b tl ih =>
      intro k
      cases b with
      | hdr n v => simp [resHdrLoop, hdrCountBeforeEoh, ih]
      | eoh => simp [resHdrLoop, hdrCountBeforeEoh]
      | reqSL m u v bo => simp [resHdrLoop, hdrCountBeforeEoh, ih]
      | resSL v st rs ir => simp [resHdrLoop, hdrCountBeforeEoh, ih]
      | data bs => simp [resHdrLoop, hdrCountBeforeEoh, ih]
      | eot => simp [resHdrLoop, hdrCountBeforeEoh, ih]

/-- Helper: the sentinel is written exactly when an end-of-headers
marker occurs. -/
theorem resHdrLoop_sentinel_eq :
    ∀ (blks : List HtxBlk) (k : Nat),
      (resHdrLoop blks k).sentinel = eohFound blks := by
  intro blks
  induction blks with
  | nil => intro k; rfl
  | cons b tl ih =>
      intro k
      cases b with
      | hdr n v => simp [resHdrLoop, eohFound, ih]
      | eoh => simp [resHdrLoop, eohFound]
      | reqSL m u v bo => simp [resHdrLoop, eohFound, ih]
      | resSL v st rs ir => simp [resHdrLoop, eohFound, ih]
      | data bs => simp [resHdrLoop, eohFound, ih]
      | eot => simp [resHdrLoop, eohFound, ih]

/-- C1 (amended): header blocks are read into the bounded local array of
capacity equal to the configured maximum header count, and every write
(including the sentinel) stays inside the array whenever the number of
headers before end-of-headers is strictly below that capacity; the loop
itself performs no capacity check, so no fatal error exists for an
excessive header count — the bound is an invariant the HTX producer must
supply. -/
theorem res_hdr_writes_in_bounds (blks : List HtxBlk) (cap : Nat)
    (h : hdrCountBeforeEoh blks < cap) :
    ((resHdrLoop blks 0).writes.all (fun i => decide (i < cap))) = true := by
  rw [List.all_eq_true]
  intro i hi
  have hle := resHdrLoop_writes_le blks 0 i hi
  simp only [decide_eq_true_eq]
  omega

/-- Counterexample for C1 as frozen: with two headers and capacity 1 the
loop completes normally (sentinel written, no error outcome exists) and
writes indices 0, 1 and 2 — beyond the array capacity — instead of
failing with a fatal extraction error. -/
theorem res_hdr_overflow_counterexample :
    (resHdrLoop [HtxBlk.hdr "a" "1", HtxBlk.hdr "b" "2", HtxBlk.eoh] 0).sentinel
      = true ∧
    (resHdrLoop [HtxBlk.hdr "a" "1", HtxBlk.hdr "b" "2", HtxBlk.eoh] 0).writes
      = [0, 1, 2] ∧
    ((resHdrLoop [HtxBlk.hdr "a" "1", HtxBlk.hdr "b" "2", HtxBlk.eoh] 0).writes.all
      (fun i => decide (i < 1))) = false := by decide

/-- Witness for C1: with capacity 3 and two headers every write stays in
bounds. -/
theorem res_hdr_writes_in_bounds_witness :
    hdrCountBeforeEoh [HtxBlk.hdr "a" "1", HtxBlk.hdr "b" "2", HtxBlk.eoh] < 3 ∧
    ((resHdrLoop [HtxBlk.hdr "a" "1", HtxBlk.hdr "b" "2", HtxBlk.eoh] 0).writes.all
      (fun i => decide (i < 3))) = true :=
  ⟨by decide, res_hdr_writes_in_bounds _ 3 (by decide)⟩

/-! ## C7: sentinel invariant of the header array -/

/-- C7: after a header-extraction pass that found the end-of-headers
marker (with committed data present and a successful allocation), the
header array of a fresh response is non-null exactly when at least one
header was extracted; when non-null it has length header-count plus one
and ends in the null sentinel; and the headers callback event is emitted
only when at least one header was found. -/
theorem res_hdr_sentinel_spec (s : LoopSt) (allocOk : Bool)
    (h0 : s.hc.res.hdrs = none) (hco : s.chRes.co ≠ 0)
    (heoh : eohFound s.chRes.htx.blocks = true) (hA : allocOk = true) :
    ((stepResHdr s allocOk).s.hc.res.hdrs ≠ none ↔
      hdrCountBeforeEoh s.chRes.htx.blocks ≠ 0) ∧
    (∀ l, (stepResHdr s allocOk).s.hc.res.hdrs = some l →
      l.length = hdrCountBeforeEoh s.chRes.htx.blocks + 1 ∧
      l.getLast? = some HdrSlot.sentinel) ∧
    (IoEvent.headers ∈ (stepResHdr s allocOk).events →
      hdrCountBeforeEoh s.chRes.htx.blocks ≠ 0) := by
  subst hA
  unfold stepResHdr
  rw [if_neg hco]
  simp only []
  by_cases hcnt : (resHdrLoop s.chRes.htx.blocks 0).entries.length ≠ 0
  · rw [if_pos hcnt, if_pos trivial]
    have hsent : (resHdrLoop s.chRes.htx.blocks 0).sentinel = true := by
      rw [resHdrLoop_sentinel_eq]
      exact heoh
    rw [hsent]
    dsimp only
    refine ⟨?_, ?_, ?_⟩
    · constructor
      · intro _
        rw [← resHdrLoop_entries_length s.chRes.htx.blocks 0]
        exact hcnt
      · intro _
        exact Option.noConfusion
    · intro l hl
      simp only [Option.some.injEq] at hl
      subst hl
      constructor
      · simp [List.length_concat, resHdrLoop_entries_length s.chRes.htx.blocks 0]
      · rw [List.getLast?_concat]
        simp
    · intro _
      rw [← resHdrLoop_entries_length s.chRes.htx.blocks 0]
      exact hcnt
  · rw [if_neg hcnt]
    dsimp only
    push_neg at hcnt
    have hcnt0 : hdrCountBeforeEoh s.chRes.htx.blocks = 0 := by
      rw [← resHdrLoop_entries_length s.chRes.htx.blocks 0]
      exact hcnt
    refine ⟨?_, ?_, ?_⟩
    · rw [h0, hcnt0]
      simp
    · intro l hl
      rw [h0] at hl
      exact Option.noConfusion hl
    · intro hmem
      exact absurd hmem (by simp)

/-- Witness for C7: two extracted headers yield an array of length three
ending in the sentinel. -/
theorem res_hdr_sentinel_spec_witness :
    ((stepResHdr sHdr true).s.hc.res.hdrs.getD []).length =
      hdrCountBeforeEoh sHdr.chRes.htx.blocks + 1 ∧
    ((stepResHdr sHdr true).s.hc.res.hdrs.getD []).getLast? =
      some HdrSlot.sentinel :=
  (res_hdr_sentinel_spec sHdr true rfl (by decide) (by decide) rfl).2.1
    ((stepResHdr sHdr true).s.hc.res.hdrs.getD []) (by rfl)

/-! ## C8: the task's first entry state -/

/-- C8 (amended): every successful `httpclient_applet_init` marks the
client started and sets the first state to REQ_BODY when a streaming
body callback is registered, and to RES_STLINE otherwise (the request
was already handed over when the stream was created) — never to REQ. -/
theorem applet_init_first_state (hc : HttpClient) (o1 o2 o3 o4 : Bool)
    (r : InitRes) (h : httpclient_applet_init hc o1 o2 o3 o4 = some r) :
    r.st0 = (if hc.ops.req_payload then HCState.REQ_BODY
             else HCState.RES_STLINE) ∧
    r.started = true ∧ r.st0 ≠ HCState.REQ := by
  simp only [httpclient_applet_init] at h
  split at h
  · exact Option.noConfusion h
  split at h
  · exact Option.noConfusion h
  split at h
  · exact Option.noConfusion h
  injection h with h
  subst h
  refine ⟨rfl, rfl, ?_⟩
  split <;> simp

/-- Counterexample for C8 as frozen: a successfully started client with
no streaming-body callback enters at RES_STLINE, not at REQ. -/
theorem applet_init_res_stline_counterexample :
    httpclient_applet_init hcFresh true true true true =
      some ⟨HCState.RES_STLINE, true, true, false⟩ ∧
    HCState.RES_STLINE ≠ HCState.REQ := by decide

/-- Witness for C8 at a concrete client without a streaming callback. -/
theorem applet_init_first_state_witness :
    (httpclient_applet_init hcFresh true true true true).map InitRes.st0 =
      some (if hcFresh.ops.req_payload then HCState.REQ_BODY
            else HCState.RES_STLINE) := by
  have he : httpclient_applet_init hcFresh true true true true =
      some ⟨HCState.RES_STLINE, true, true, false⟩ := by decide
  have h := applet_init_first_state hcFresh true true true true _ he
  rw [he, Option.map_some', h.1]

/-! ## C3: the end callback fires exactly once, last -/

/-- Helper: the REQ case never touches the callback table. -/
theorem stepReq_ops (s : LoopSt) : (stepReq s).s.hc.ops = s.hc.ops := by
  unfold stepReq
  rcases hb : s.hc.req.buf with _ | h
  · rfl
  · simp only []
    repeat' split
    all_goals rfl

/-- Helper: the REQ_BODY case never touches the callback table. -/
theorem stepReqBody_ops (s : LoopSt) (cb : Htx) :
    (stepReqBody s cb).s.hc.ops = s.hc.ops := by
  unfold stepReqBody
  dsimp only
  repeat' split
  all_goals rfl

/-- Helper: the RES_STLINE case never touches the callback table. -/
theorem stepResStline_ops (s : LoopSt) :
    (stepResStline s).s.hc.ops = s.hc.ops := by
  unfold stepResStline
  dsimp only
  repeat' split
  all_goals rfl

/-- Helper: the RES_HDR case never touches the callback table. -/
theorem stepResHdr_ops (s : LoopSt) (allocOk : Bool) :
    (stepResHdr s allocOk).s.hc.ops = s.hc.ops := by
  unfold stepResHdr
  dsimp only
  repeat' split
  all_goals rfl

/-- Helper: the RES_BODY case never touches the callback table. -/
theorem stepResBody_ops (s : LoopSt) (allocOk : Bool) (bufsize : Nat) :
    (stepResBody s allocOk bufsize).s.hc.ops = s.hc.ops := by
  unfold stepResBody
  dsimp only
  repeat' split
  all_goals rfl

/-- Helper: one loop iteration never touches the callback table. -/
theorem ioStep_ops (s : LoopSt) (i : IoIn) :
    (ioStep s i).s.hc.ops = s.hc.ops := by
  unfold ioStep
  by_cases hstop : s.hc.flags.stop = true
  · rw [if_pos hstop]
  · rw [if_neg hstop]
    rcases hs : s.st0 <;>
      first
        | exact stepReq_ops s
        | exact stepReqBody_ops s i.cbReqBuf
        | exact stepResStline_ops s
        | exact stepResHdr_ops s i.allocOk
        | exact stepResBody_ops s i.allocOk i.bufsize
        | rfl

/-- Helper: the fuelled loop never touches the callback table. -/
theorem ioLoop_ops (fuel : Nat) (s : LoopSt) (i : IoIn) :
    (ioLoop fuel s i).1.hc.ops = s.hc.ops := by
  induction fuel generalizing s with
  | zero => rfl
  | succ n ih =>
      unfold ioLoop
      rcases he : (ioStep s i).exit with _ | e
      · simp only [he]
        exact (ih (ioStep s i).s).trans (ioStep_ops s i)
      · simp only [he]
        exact ioStep_ops s i

/-- Helper: a wake-up never touches the callback table. -/
theorem ioWake_ops (st : IoSt) (i : IoIn) :
    (ioWake st i).1.s.hc.ops = st.s.hc.ops := by
  unfold ioWake
  split
  · rfl
  · dsimp only
    repeat' split
    all_goals exact ioLoop_ops ioFuel _ i

/-- Helper: a whole wake sequence never touches the callback table. -/
theorem runWakes_ops (ins : List IoIn) (st : IoSt) :
    (runWakes st ins).1.s.hc.ops = st.s.hc.ops := by
  induction ins generalizing st with
  | nil => rfl
  | cons i rest ih =>
      unfold runWakes
      exact (ih (ioWake st i).1).trans (ioWake_ops st i)

/-- Helper: handler events mapped into the callback alphabet never
contain the end callback. -/
theorem count_end_map_io (evs : List IoEvent) :
    (evs.map IoEvent.toCb).count CbEvent.endCb = 0 := by
  induction evs with
  | nil => rfl
  | cons e tl ih =>
      rw [List.map_cons, List.count_cons, ih]
      cases e <;> rfl

/-- C3: for every started client with an end callback registered and
every sequence of wake-ups (including forced stops at arbitrary points),
the task's callback trace contains the end callback exactly once, and it
is the last callback of the trace — the release hook, which the host
runs exactly once when the applet exits, is the only place that fires
it. -/
theorem end_callback_exactly_once (st : IoSt) (ins : List IoIn)
    (h : st.s.hc.ops.res_end = true) :
    (runTask st ins).count CbEvent.endCb = 1 ∧
    (runTask st ins).getLast? = some CbEvent.endCb := by
  have hops : (runWakes st ins).1.s.hc.ops = st.s.hc.ops := runWakes_ops ins st
  have hrel : (httpclient_applet_release (runWakes st ins).1.s.hc).2 =
      [CbEvent.endCb] := by
    unfold httpclient_applet_release
    dsimp only
    rw [hops, h]
    split <;> rfl
  unfold runTask
  rw [hrel]
  constructor
  · rw [List.count_append, count_end_map_io]
    rfl
  · rw [List.getLast?_concat]

/-- Witness for C3: the empty wake sequence on a client with an end
callback registered. -/
theorem end_callback_exactly_once_witness :
    (runTask ioStEx []).count CbEvent.endCb = 1 ∧
    (runTask ioStEx []).getLast? = some CbEvent.endCb :=
  end_callback_exactly_once ioStEx [] rfl
